import Mathlib

/-!
# Verification of the openspecui desktop core

A shallow embedding, in Lean 4, of the pure logic of the `openspecui`
desktop application (`src/desktop/autofix_logic.py` and the core session /
callback machinery of `src/desktop/app.py`), together with theorems that
settle the specification claims about it.

Python strings are modelled as `List Char`; Python byte payloads as
`List Nat`; wall-clock times (Python floats from `time.time()`) as `Int` seconds.
Python dictionaries keyed by strings are modelled as association lists in
insertion order (Python 3.7+ dicts preserve insertion order), with key
uniqueness carried as a hypothesis where a theorem needs it.
-/

namespace OpenSpecUI

/-! ## Python string primitives

The fragments of Python's `str` API used by the desktop code:
`str.strip`, `str.lower`, `str.upper`, `str.startswith`, `str.endswith`,
`str.split('\n')`, and the `\s` character class of the `re` module.
`pyIsSpace` covers the whitespace code points relevant here (the ASCII
space class plus the common Unicode additions recognised by Python). -/

def pyIsSpace (c : Char) : Bool :=
  c = ' ' || c = '\t' || c = '\n' || c = '\r' || c = '\x0b' || c = '\x0c' ||
  c = '\x1c' || c = '\x1d' || c = '\x1e' || c = '\x1f' || c = '\x85' || c = '\xa0'

/-- Python `str.strip()`: remove leading and trailing whitespace. -/
def pyStrip (l : List Char) : List Char :=
  ((l.dropWhile pyIsSpace).reverse.dropWhile pyIsSpace).reverse

/-- Python `str.lower()` (ASCII case mapping, which is all the code relies on). -/
def pyLower (l : List Char) : List Char := l.map Char.toLower

/-- Python `str.upper()` (ASCII case mapping, which is all the code relies on). -/
def pyUpper (l : List Char) : List Char := l.map Char.toUpper

/-- Python `s.startswith(pre)`. -/
def pyStartsWith (s pre : List Char) : Bool := pre.isPrefixOf s

/-- Python `s.endswith(suf)`. -/
def pyEndsWith (s suf : List Char) : Bool := suf.isSuffixOf s

/-- Worker for `pySplitNL`. -/
def splitNLGo (cur : List Char) : List Char → List (List Char)
  | [] => [cur.reverse]
  | '\n' :: rest => cur.reverse :: splitNLGo [] rest
  | c :: rest => splitNLGo (c :: cur) rest

/-- Python `text.split('\n')`.  Note `''.split('\n') == ['']`. -/
def pySplitNL (l : List Char) : List (List Char) := splitNLGo [] l

/-! ## `autofix_logic.parse_checkbox_items` -/

/-- One parsed markdown checkbox item (`{'text': …, 'checked': …}`). -/
structure CheckItem where
  text : List Char
  checked : Bool
  deriving DecidableEq, Repr

/-- Result of `parse_checkbox_items`: the checkbox `items` and the non-blank
non-checkbox `context_lines`. -/
structure ParseResult where
  items : List CheckItem
  context_lines : List (List Char)
  deriving DecidableEq, Repr

/-- `re.match(r'^(\s*)-\s\[\s\]\s(.+)$', line)`: leading whitespace, a dash,
exactly one whitespace char, `[`, one whitespace char, `]`, one whitespace
char, then a non-empty remainder (returned, it is group 2). -/
def matchUnchecked (line : List Char) : Option (List Char) :=
  match line.dropWhile pyIsSpace with
  | '-' :: s1 :: '[' :: s2 :: ']' :: s3 :: rest =>
    if pyIsSpace s1 && pyIsSpace s2 && pyIsSpace s3 && !rest.isEmpty then some rest
    else none
  | _ => none

/-- `re.match(r'^(\s*)-\s\[x\]\s(.+)$', line, re.IGNORECASE)`: as
`matchUnchecked` but with a literal `x` (or `X`) inside the brackets. -/
def matchChecked (line : List Char) : Option (List Char) :=
  match line.dropWhile pyIsSpace with
  | '-' :: s1 :: '[' :: x :: ']' :: s3 :: rest =>
    if pyIsSpace s1 && (x = 'x' || x = 'X') && pyIsSpace s3 && !rest.isEmpty then some rest
    else none
  | _ => none

/-- The `line.strip().startswith('```')` test of `parse_checkbox_items`. -/
def isFenceLine (line : List Char) : Bool :=
  pyStartsWith (pyStrip line) ['`', '`', '`']

/-- The trigger-skip test of `parse_checkbox_items`:
`trigger_to_skip and line.strip().lower().startswith(trigger_to_skip.lower())`
(a `None` or empty trigger is falsy in Python and skips nothing). -/
def isTriggerSkipLine (trig : Option (List Char)) (line : List Char) : Bool :=
  match trig with
  | none => false
  | some t => !t.isEmpty && pyStartsWith (pyLower (pyStrip line)) (pyLower t)

/-- The line loop of `parse_checkbox_items`, carrying the
`in_code_block` flag. -/
def parseCheckboxGo (trig : Option (List Char)) :
    Bool → List (List Char) → ParseResult
  | _, [] => ⟨[], []⟩
  | inCb, line :: rest =>
    if isFenceLine line then parseCheckboxGo trig (!inCb) rest
    else if inCb then parseCheckboxGo trig inCb rest
    else if isTriggerSkipLine trig line then parseCheckboxGo trig inCb rest
    else
      match matchUnchecked line with
      | some t =>
        let r := parseCheckboxGo trig inCb rest
        ⟨⟨pyStrip t, false⟩ :: r.items, r.context_lines⟩
      | none =>
        match matchChecked line with
        | some t =>
          let r := parseCheckboxGo trig inCb rest
          ⟨⟨pyStrip t, true⟩ :: r.items, r.context_lines⟩
        | none =>
          if (pyStrip line).isEmpty then parseCheckboxGo trig inCb rest
          else
            let r := parseCheckboxGo trig inCb rest
            ⟨r.items, line :: r.context_lines⟩

/-- `autofix_logic.parse_checkbox_items(text, trigger_to_skip)`. -/
def parse_checkbox_items (text : List Char) (trig : Option (List Char)) : ParseResult :=
  parseCheckboxGo trig false (pySplitNL text)

/-! ## `autofix_logic.filter_p0p1_items` -/

/-- A word character for `\b` (ASCII fragment of Python's `\w`). -/
def isWordChar (c : Char) : Bool := c.isAlphanum || c = '_'

/-- Does `isWordChar` hold of the character preceding the scan position
(`none` meaning start of string, hence a boundary)? -/
def isWordBefore : Option Char → Bool
  | none => false
  | some c => isWordChar c

/-- `re.search(r'\bP[01]\b', s)`: scan `s` (with `prev` the character just
before the current position) for a standalone `P0` or `P1` token. -/
def hasStandaloneP01 (prev : Option Char) : List Char → Bool
  | [] => false
  | c :: rest =>
    (c = 'P' &&
      (match rest with
       | d :: rest2 =>
         (d = '0' || d = '1') && !isWordBefore prev &&
           (match rest2 with
            | [] => true
            | e :: _ => !isWordChar e)
       | [] => false)) ||
    hasStandaloneP01 (some c) rest

/-- `re.sub(r'^[\s*_\[\]]+', '', ·)`: drop the leading run of whitespace
and markdown punctuation/brackets. -/
def stripLeadingMarkup (l : List Char) : List Char :=
  l.dropWhile (fun c => pyIsSpace c || c = '*' || c = '_' || c = '[' || c = ']')

/-- The per-item predicate of `filter_p0p1_items`. -/
def isP0P1Item (it : CheckItem) : Bool :=
  hasStandaloneP01 none (pyUpper (stripLeadingMarkup (pyStrip it.text)))

/-- `autofix_logic.filter_p0p1_items(items)`. -/
def filter_p0p1_items (items : List CheckItem) : List CheckItem :=
  items.filter isP0P1Item

/-! ## `autofix_logic.detect_scenario` and `decide_autofix_next` -/

/-- One scenario of the confirmation-card table (only its `trigger` matters
to the decision logic; `.get('trigger')` may be absent, hence `Option`). -/
structure Scenario where
  trigger : Option (List Char)
  deriving DecidableEq, Repr

/-- The ordered scenario table (a Python dict in insertion order). -/
abbrev ScenarioTable := List (String × Scenario)

/-- The per-scenario test inside `detect_scenario`: a non-`default` key with
a truthy trigger that is a case-insensitive prefix of the trimmed text. -/
def scenarioTriggerHit (text : List Char) (kv : String × Scenario) : Bool :=
  !(kv.1 == "default") &&
    (match kv.2.trigger with
     | none => false
     | some t => !t.isEmpty && pyStartsWith (pyLower (pyStrip text)) (pyLower t))

/-- `autofix_logic.detect_scenario(text, scenarios)`: key of the first
matching non-default scenario, else `'default'`. -/
def detect_scenario (text : List Char) (scens : ScenarioTable) : String :=
  match scens.find? (scenarioTriggerHit text) with
  | some kv => kv.1
  | none => "default"

/-- The result dict of `decide_autofix_next`, one constructor per shape. -/
inductive AutofixDecision where
  | stopNoScenarioMatch (cycle_count : Nat)
  | stopZeroCheckboxes (cycle_count : Nat)
  | stopMaxCycles (cycle_count remaining_count : Nat)
  | complete (cycle_count : Nat)
  | continueFix (next_cycle_count : Nat) (items : List (List Char)) (scenario_key : String)
  deriving DecidableEq, Repr

/-- `autofix_logic.decide_autofix_next(review_text, cycle_count, max_cycles,
scenarios)`.  The `none` branch of the key lookup mirrors Python's
`scenarios[scenario_key]`, which cannot fail there: `detect_scenario` only
returns keys present in the table. -/
def decide_autofix_next (review_text : List Char) (cycle_count max_cycles : Nat)
    (scens : ScenarioTable) : AutofixDecision :=
  let scenario_key := detect_scenario review_text scens
  if scenario_key == "default" then .stopNoScenarioMatch cycle_count
  else
    match scens.find? (fun kv => kv.1 == scenario_key) with
    | none => .stopNoScenarioMatch cycle_count
    | some kv =>
      let parsed := parse_checkbox_items review_text kv.2.trigger
      if parsed.items.isEmpty then .stopZeroCheckboxes cycle_count
      else
        let unchecked := parsed.items.filter (fun i => !i.checked)
        let p0p1 := filter_p0p1_items unchecked
        if p0p1.isEmpty then .complete cycle_count
        else if max_cycles ≤ cycle_count then
          .stopMaxCycles cycle_count p0p1.length
        else
          .continueFix (cycle_count + 1) (p0p1.map CheckItem.text) scenario_key

/-! ## `autofix_logic.is_codex_turn_complete`

A hook event (`data : dict`) is modelled by the fields the function reads.
String-valued fields are `Option String` (`none` for an absent key);
the truthiness tests `data.get('done')` / `data.get('complete')` are
modelled by `Bool` fields defaulting to `false`.  `data.get('payload', {})`
with its `isinstance(payload, dict)` guard is an `Option CodexPayload`:
an absent, `{}`, or non-dict payload all contribute nothing, which the
`none` case captures. -/

structure CodexPayload where
  type : Option String := none
  event_type : Option String := none
  hook_event_name : Option String := none
  event : Option String := none
  status : Option String := none
  done : Bool := false
  complete : Bool := false
  deriving Repr

structure CodexEvent where
  codex_is_done : Option Bool := none
  codex_event_type : Option String := none
  event_type : Option String := none
  type : Option String := none
  hook_event_name : Option String := none
  payload : Option CodexPayload := none
  status : Option String := none
  done : Bool := false
  complete : Bool := false
  deriving Repr

/-- A separator character for `_normalize_event_token`'s `[/_\s]+` class. -/
def isTokenSep (c : Char) : Bool := c = '/' || c = '_' || pyIsSpace c

/-- `re.sub(r'[/_\s]+', '-', ·)`: collapse every run of separators into a
single hyphen. -/
def collapseSepsGo : Bool → List Char → List Char
  | _, [] => []
  | inRun, c :: rest =>
    if isTokenSep c then
      if inRun then collapseSepsGo true rest
      else '-' :: collapseSepsGo true rest
    else c :: collapseSepsGo false rest

/-- `re.sub(r'[/_\s]+', '-', ·)` via `collapseSepsGo`: a run of
separator characters becomes a single hyphen. -/
def collapseSeps (l : List Char) : List Char := collapseSepsGo false l

/-- `str(value or '').strip().lower()` applied to an optional string. -/
def rawEventToken (v : Option String) : List Char :=
  pyLower (pyStrip (v.getD "").toList)

/-- `autofix_logic._normalize_event_token(value)`. -/
def normalize_event_token (v : Option String) : List Char :=
  collapseSeps (rawEventToken v)

/-- The `done_tokens` set of `is_codex_turn_complete`. -/
def doneTokens : List String :=
  ["agent-turn-complete", "agent-turn-completed", "agent-turn-done",
   "turn-complete", "turn-completed", "turn-done",
   "item-complete", "item-completed",
   "session-complete", "session-completed",
   "response-complete", "response-completed", "response-done",
   "message-complete", "message-completed", "message-done",
   "completion", "completed", "done", "finished", "stop", "stopped"]

/-- The `event_candidates` list (top-level fields, then payload fields when
the payload is a dict). -/
def eventCandidates (data : CodexEvent) : List (Option String) :=
  [data.codex_event_type, data.event_type, data.type, data.hook_event_name] ++
    (match data.payload with
     | some p => [p.type, p.event_type, p.hook_event_name, p.event]
     | none => [])

/-- The `status_candidates` list (top-level `status`, then payload `status`). -/
def statusCandidates (data : CodexEvent) : List (Option String) :=
  [data.status] ++
    (match data.payload with
     | some p => [p.status]
     | none => [])

/-- The per-candidate test of the event-name loop: raw `/`-suffixes first,
then (for a non-empty normalized token) set membership or `-`-suffixes. -/
def eventCandidateHit (cand : Option String) : Bool :=
  let raw := rawEventToken cand
  pyEndsWith raw "/complete".toList || pyEndsWith raw "/completed".toList ||
  pyEndsWith raw "/done".toList || pyEndsWith raw "/finished".toList ||
  (let token := collapseSeps raw
   !token.isEmpty &&
     (doneTokens.contains (String.mk token) ||
      pyEndsWith token "-complete".toList || pyEndsWith token "-completed".toList ||
      pyEndsWith token "-done".toList || pyEndsWith token "-finished".toList))

/-- The status-token test: `token in ('complete', 'completed', 'done',
'finished', 'stopped', 'success', 'ok')`. -/
def statusCandidateHit (st : Option String) : Bool :=
  ["complete", "completed", "done", "finished", "stopped", "success",
   "ok"].contains (String.mk (normalize_event_token st))

/-- `autofix_logic.is_codex_turn_complete(data)`. -/
def is_codex_turn_complete (data : CodexEvent) : Bool :=
  if data.codex_is_done == some true then true
  else if (eventCandidates data).any eventCandidateHit then true
  else if (statusCandidates data).any statusCandidateHit then true
  else
    data.done || data.complete ||
      (match data.payload with
       | some p => p.done || p.complete
       | none => false)

/-! ## `app.AppCoordinator` — ANSI stripping and prompt detection

`_ansi_re = re.compile(r'\x1b\[[0-9;]*[a-zA-Z]|\x1b\].*?\x07|\x1b\[.*?\x07|'
`                      r'\x1b[()][AB012]|\x1b\[\?[0-9;]*[hl]')`
Matching follows Python `re` semantics: at each position the five
alternatives are tried in order; `[0-9;]*` is greedy (no backtracking can
arise, the class is disjoint from what follows); `.*?` is non-greedy and
`.` does not match `'\n'`, so `\x1b\].*?\x07` consumes up to the first
BEL with no newline before it.  `re.sub(…, '')` deletes non-overlapping
matches left to right. -/

/-- A `[0-9;]` parameter character. -/
def isCsiParam (c : Char) : Bool := c.isDigit || c = ';'

/-- Consume `.*?\x07`: everything up to and including the first BEL,
failing if a newline (which `.` cannot match) comes first. -/
def uptoBell : List Char → Option (List Char)
  | [] => none
  | c :: rest =>
    if c = '\x07' then some rest
    else if c = '\n' then none
    else uptoBell rest

/-- Alternative 1, `\x1b\[[0-9;]*[a-zA-Z]`, applied after the `\x1b[`
prefix: a greedy parameter run then one ASCII letter. -/
def ansiAlt1 (rest : List Char) : Option (List Char) :=
  match rest.dropWhile isCsiParam with
  | c :: rest2 => if c.isAlpha then some rest2 else none
  | [] => none

/-- Alternative 5, `\x1b\[\?[0-9;]*[hl]`, applied after the `\x1b[`
prefix. -/
def ansiAlt5 (rest : List Char) : Option (List Char) :=
  match rest with
  | '?' :: rest3 =>
    (match rest3.dropWhile isCsiParam with
     | c :: rest4 => if c = 'h' || c = 'l' then some rest4 else none
     | [] => none)
  | _ => none

/-- If `_ansi_re` matches at the head of `l`, the remainder after the
match; `none` if no alternative matches here.  The head character
partitions the five alternatives: after `\x1b[` alternatives 1, 3, 5
apply in that order; after `\x1b]` alternative 2; otherwise
alternative 4. -/
def ansiMatchRest (l : List Char) : Option (List Char) :=
  match l with
  | '\x1b' :: '[' :: rest => ansiAlt1 rest <|> uptoBell rest <|> ansiAlt5 rest
  | '\x1b' :: ']' :: rest => uptoBell rest
  | '\x1b' :: p :: c :: rest =>
    if (p = '(' || p = ')') &&
       (c = 'A' || c = 'B' || c = '0' || c = '1' || c = '2')
    then some rest else none
  | _ => none

theorem uptoBell_length {l r : List Char} (h : uptoBell l = some r) :
    r.length < l.length := by
  induction l with
  | nil => simp [uptoBell] at h
  | cons c rest ih =>
    simp only [uptoBell] at h
    split at h
    · cases h; simp
    · split at h
      · cases h
      · exact Nat.lt_succ_of_lt (ih h)

theorem ansiAlt1_length {rest r : List Char} (h : ansiAlt1 rest = some r) :
    r.length < rest.length := by
  unfold ansiAlt1 at h
  split at h
  · rename_i c rest2 hdw
    split at h
    · cases h
      have hs : (rest.dropWhile isCsiParam).length ≤ rest.length :=
        (List.dropWhile_sublist _).length_le
      rw [hdw] at hs
      simp only [List.length_cons] at hs
      omega
    · cases h
  · cases h

theorem ansiAlt5_length {rest r : List Char} (h : ansiAlt5 rest = some r) :
    r.length < rest.length := by
  unfold ansiAlt5 at h
  split at h
  · rename_i rest3
    split at h
    · rename_i c rest4 hdw
      split at h
      · cases h
        have hs : (rest3.dropWhile isCsiParam).length ≤ rest3.length :=
          (List.dropWhile_sublist _).length_le
        rw [hdw] at hs
        simp only [List.length_cons] at hs ⊢
        omega
      · cases h
    · cases h
  · cases h

theorem ansiMatchRest_length {l r : List Char} (h : ansiMatchRest l = some r) :
    r.length < l.length := by
  unfold ansiMatchRest at h
  split at h
  · rename_i rest
    rcases h1 : ansiAlt1 rest with _ | r1
    · rw [h1, Option.none_orElse] at h
      rcases h2 : uptoBell rest with _ | r2
      · rw [h2, Option.none_orElse] at h
        have := ansiAlt5_length h
        simp only [List.length_cons]
        omega
      · rw [h2, Option.some_orElse] at h
        cases h
        have := uptoBell_length h2
        simp only [List.length_cons]
        omega
    · rw [h1, Option.some_orElse] at h
      cases h
      have := ansiAlt1_length h1
      simp only [List.length_cons]
      omega
  · rename_i rest
    have := uptoBell_length h
    simp only [List.length_cons]
    omega
  · split at h
    · cases h
      simp only [List.length_cons]
      omega
    · cases h
  · cases h

/-- Worker for `ansiStrip`.  The fuel only serves to make the recursion
structural (each step strictly shrinks the list, see
`ansiMatchRest_length`); `ansiStrip` supplies `l.length`, which never
runs out, and `ansiStripGo_congr` + `ansiStrip_cons` below pin the
fuel-free recurrence this computes. -/
def ansiStripGo : Nat → List Char → List Char
  | _, [] => []
  | 0, l => l
  | fuel + 1, c :: rest =>
    match ansiMatchRest (c :: rest) with
    | some rem => ansiStripGo fuel rem
    | none => c :: ansiStripGo fuel rest

/-- `AppCoordinator._ansi_re.sub('', ·)`: delete every (leftmost,
non-overlapping) escape-sequence match. -/
def ansiStrip (l : List Char) : List Char := ansiStripGo l.length l

theorem ansiStripGo_congr :
    ∀ (fuel fuel' : Nat) (l : List Char), l.length ≤ fuel → l.length ≤ fuel' →
      ansiStripGo fuel l = ansiStripGo fuel' l := by
  intro fuel
  induction fuel with
  | zero =>
    intro fuel' l hl _
    have : l = [] := List.length_eq_zero.mp (Nat.le_zero.mp hl)
    subst this
    cases fuel' <;> simp [ansiStripGo]
  | succ n ih =>
    intro fuel' l hl hl'
    match l, fuel' with
    | [], m => cases m <;> simp [ansiStripGo]
    | c :: rest, 0 => simp at hl'
    | c :: rest, m + 1 =>
      simp only [ansiStripGo]
      simp only [List.length_cons, Nat.succ_le_succ_iff] at hl hl'
      cases hmr : ansiMatchRest (c :: rest) with
      | some rem =>
        have hrem : rem.length < rest.length + 1 := ansiMatchRest_length hmr
        exact ih m rem (by omega) (by omega)
      | none =>
        rw [ih m rest hl hl']

theorem ansiStrip_nil : ansiStrip [] = [] := rfl

/-- The fuel-free recurrence satisfied by `ansiStrip`: at each position,
delete a match of `_ansi_re` and continue after it, or keep the
character and move one to the right. -/
theorem ansiStrip_cons (c : Char) (rest : List Char) :
    ansiStrip (c :: rest) =
      match ansiMatchRest (c :: rest) with
      | some rem => ansiStrip rem
      | none => c :: ansiStrip rest := by
  show ansiStripGo (c :: rest).length (c :: rest) = _
  simp only [List.length_cons, ansiStripGo]
  cases hmr : ansiMatchRest (c :: rest) with
  | some rem =>
    have hrem : rem.length < rest.length + 1 := ansiMatchRest_length hmr
    exact ansiStripGo_congr rest.length rem.length rem (by omega) (le_refl _)
  | none => rfl

/-- Python `s[-n:]` (for `n > 0`): the trailing `n` elements. -/
def lastN (n : Nat) (l : List Char) : List Char := l.drop (l.length - n)

/-- The detection window: `clean[-200:]` of the ANSI-stripped buffer. -/
def promptTail (buffer : List Char) : List Char := lastN 200 (ansiStrip buffer)

/-- A `[$%❯>]` shell-prompt character. -/
def isShellPromptChar (c : Char) : Bool :=
  c = '$' || c = '%' || c = '❯' || c = '>'

/-- A `[>❯]` droid-prompt character. -/
def isDroidPromptChar (c : Char) : Bool := c = '>' || c = '❯'

/-- Try a pattern anchored at every suffix position (the scan loop of
`re.search`). -/
def searchSuffixes (atP : List Char → Bool) : List Char → Bool
  | [] => atP []
  | c :: rest => atP (c :: rest) || searchSuffixes atP rest

/-- `[$%❯>]\s*$` anchored at the current position. -/
def shellPromptAt : List Char → Bool
  | [] => false
  | c :: rest => isShellPromptChar c && rest.all pyIsSpace

/-- `[>❯]\s*$|How can I help` anchored at the current position. -/
def droidPromptAt (l : List Char) : Bool :=
  (match l with
   | [] => false
   | c :: rest => isDroidPromptChar c && rest.all pyIsSpace) ||
  pyStartsWith l "How can I help".toList

/-- `AppCoordinator._shell_prompt_re.search(tail)`. -/
def shellPromptSearch (tail : List Char) : Bool := searchSuffixes shellPromptAt tail

/-- `AppCoordinator._droid_prompt_re.search(tail)`. -/
def droidPromptSearch (tail : List Char) : Bool := searchSuffixes droidPromptAt tail

/-- The `matched` computation of `_on_terminal_output`: only the literal
pattern strings `'shell'` and `'droid'` are recognised; anything else
(including the spec's name `'agent'`) never matches. -/
def patternMatched (pattern : String) (tail : List Char) : Bool :=
  if pattern == "shell" then shellPromptSearch tail
  else if pattern == "droid" then droidPromptSearch tail
  else false

/-! ## Pending completion callbacks -/

/-- `self._CB_MAX_BUFFER = 512 * 1024`. -/
def CB_MAX_BUFFER : Nat := 512 * 1024

/-- `self._CB_TIMEOUT_SECS = 300`. -/
def CB_TIMEOUT_SECS : Int := 300

/-- One entry of a pending-callbacks dict:
`{'pattern': …, 'buffer': '', 'command': …, 'created_at': time.time()}`
(the `command` field is display-only and omitted). -/
structure CbInfo where
  pattern : String
  buffer : List Char
  created_at : Int
  deriving DecidableEq, Repr

/-- `AppCoordinator._cap_callback_buffer`: keep only the trailing
`CB_MAX_BUFFER` characters once the buffer exceeds the cap. -/
def capCallbackBuffer (buf : List Char) : List Char :=
  if CB_MAX_BUFFER < buf.length then buf.drop (buf.length - CB_MAX_BUFFER) else buf

/-- The per-entry buffer update of `_on_terminal_output`
(`cb_info['buffer'] += text` followed by `_cap_callback_buffer`). -/
def appendAndCap (buf chunk : List Char) : List Char :=
  capCallbackBuffer (buf ++ chunk)

/-- JS string escaping in `_fire_callback`:
`output.replace('\\','\\\\').replace("'","\\'").replace('\n','\\n').replace('\r','\\r')`.
The four sequential replaces act independently per character (no
replacement string contains a later target), so a single character map is
exact. -/
def jsEscape (l : List Char) : List Char :=
  (l.map (fun c =>
    if c = '\\' then ['\\', '\\']
    else if c = '\'' then ['\\', '\'']
    else if c = '\n' then ['\\', 'n']
    else if c = '\r' then ['\\', 'r']
    else [c])).flatten

/-- The string actually interpolated into the JS callback invocation by
`_fire_callback`: the JS-escaped unstripped buffer, truncated to its last
10000 characters after escaping. -/
def fireCallbackDelivered (output : List Char) : List Char :=
  let safe := jsEscape output
  if 10000 < safe.length then lastN 10000 safe else safe

/-- One `_fire_callback` invocation recorded by the chunk processor:
`output` is the (unstripped, capped) accumulated buffer passed to it. -/
structure FiredCallback where
  cb_id : String
  output : List Char
  deriving DecidableEq, Repr

/-- Did the updated entry match its prompt pattern on this chunk? -/
def cbMatchedNow (info : CbInfo) : Bool :=
  patternMatched info.pattern (promptTail info.buffer)

/-- The pending-callbacks body of `_on_terminal_output` for one decoded
chunk `text`: every entry appends the chunk and is capped; entries whose
ANSI-stripped 200-character tail now matches their pattern fire (in table
order) and are deleted.  Returns the surviving table and the fired
callbacks. -/
def processPendingChunk (table : List (String × CbInfo)) (text : List Char) :
    List (String × CbInfo) × List FiredCallback :=
  let updated := table.map (fun kv =>
    (kv.1, { kv.2 with buffer := appendAndCap kv.2.buffer text }))
  (updated.filter (fun kv => !cbMatchedNow kv.2),
   (updated.filter (fun kv => cbMatchedNow kv.2)).map (fun kv => ⟨kv.1, kv.2.buffer⟩))

/-! ## `app.TerminalSession` — `write`, `_write_chunked`, `kill`

The OS side is an oracle: `errs i` says whether the `i`-th `os.write`
call of this `write` invocation raises `OSError`.  A `write` produces a
trace of side effects (`osWrite` for each successful `os.write`,
`sleepMs` for each `time.sleep`).  Python exceptions are explicit:
`osWriteCall` may raise, and the `try/except OSError` handlers of
`write` and `_write_chunked` catch exactly `OSError`. -/

/-- The Python exceptions relevant to the write path. -/
inductive PyExn where
  | osError
  | otherError
  deriving DecidableEq, Repr

/-- One observable side effect of a `write` invocation. -/
inductive PtyEvent where
  | osWrite (data : List Nat)
  | sleepMs (ms : Nat)
  deriving DecidableEq, Repr

/-- `TerminalSession._PTY_CHUNK_SIZE = 400`. -/
def PTY_CHUNK_SIZE : Nat := 400

/-- `TerminalSession._PTY_CHUNK_DELAY = 0.005` (milliseconds here). -/
def PTY_CHUNK_DELAY_MS : Nat := 5

/-- The liveness/handle state of a `TerminalSession` (fields `master_fd`,
`_alive`; the OS-process details are outside this model). -/
structure TerminalSession where
  master_fd : Option Nat
  alive : Bool
  deriving DecidableEq, Repr

/-- `os.write(self.master_fd, data)`: raises `OSError` when the oracle
says so, otherwise succeeds with an `osWrite` event. -/
def osWriteCall (errs : Nat → Bool) (i : Nat) (data : List Nat) :
    Except PyExn PtyEvent :=
  if errs i then .error .osError else .ok (.osWrite data)

/-- `TerminalSession._write_chunked(data)`: write `≤ 400`-byte chunks,
sleeping 5 ms between consecutive chunks; an `OSError` on a chunk breaks
the loop (caught inside the loop, never propagated).  `alive` is the
`self._alive` flag read by the loop condition (constant here: the
sequential model has no concurrent `kill`). -/
def writeChunkedGo (alive : Bool) (errs : Nat → Bool) (i : Nat)
    (data : List Nat) : List PtyEvent :=
  if h : data.isEmpty || !alive then []
  else
    let chunk := data.take PTY_CHUNK_SIZE
    let rest := data.drop PTY_CHUNK_SIZE
    match osWriteCall errs i chunk with
    | .error _ => []
    | .ok ev =>
      if rest.isEmpty then [ev]
      else ev :: .sleepMs PTY_CHUNK_DELAY_MS :: writeChunkedGo alive errs (i + 1) rest
termination_by data.length
decreasing_by
  simp only [Bool.or_eq_true, Bool.not_eq_true', List.isEmpty_eq_true] at h
  push_neg at h
  have hpos : 0 < data.length := List.length_pos.mpr h.1
  simp only [List.length_drop, PTY_CHUNK_SIZE]
  omega

/-- `TerminalSession.write(data)`: no-op unless the fd is set and the
session is alive; small payloads are written directly, large ones are
chunked; `OSError` is caught (`except OSError: pass`).  The result is
`.error` only if an exception escapes `write` itself. -/
def TerminalSession.write (s : TerminalSession) (errs : Nat → Bool)
    (data : List Nat) : Except PyExn (List PtyEvent) :=
  if s.master_fd.isSome && s.alive then
    if data.length ≤ PTY_CHUNK_SIZE then
      match osWriteCall errs 0 data with
      | .ok ev => .ok [ev]
      | .error .osError => .ok []
      | .error .otherError => .error .otherError
    else .ok (writeChunkedGo s.alive errs 0 data)
  else .ok []

/-- `TerminalSession.kill()` as it affects the write path: marks the
session dead immediately (`self._alive = False`).  The SIGTERM walk over
the process tree is an OS side effect outside this model. -/
def TerminalSession.kill (s : TerminalSession) : TerminalSession :=
  { s with alive := false }

/-- The chunk decomposition `data[0:400], data[400:800], …` produced by
the `_write_chunked` loop. -/
def ptyChunks (data : List Nat) : List (List Nat) :=
  if h : data.isEmpty then []
  else data.take PTY_CHUNK_SIZE :: ptyChunks (data.drop PTY_CHUNK_SIZE)
termination_by data.length
decreasing_by
  simp only [List.isEmpty_eq_true] at h
  have hpos : 0 < data.length := List.length_pos.mpr h
  simp only [List.length_drop, PTY_CHUNK_SIZE]
  omega

/-- The successful writes of a trace, in order. -/
def writesOf (evs : List PtyEvent) : List (List Nat) :=
  evs.filterMap (fun ev =>
    match ev with
    | .osWrite d => some d
    | .sleepMs _ => none)

/-! ## Stale-callback purge (`_purge_stale_callbacks`) -/

/-- The three pending-callback tables swept by the purge: `main`
(`_pending_callbacks`), `review` (`_review_pending_callbacks`) and the
per-tab `change` tables (`_change_pending_callbacks`). -/
structure CallbackTables where
  pending : List (String × CbInfo)
  review_pending : List (String × CbInfo)
  change_pending : List (String × List (String × CbInfo))
  deriving DecidableEq, Repr

/-- The staleness test `now - v.get('created_at', now) > timeout` (every
entry is created with a `created_at`, so the default never applies). -/
def isStaleCb (now : Int) (info : CbInfo) : Bool :=
  decide (CB_TIMEOUT_SECS < now - info.created_at)

/-- `AppCoordinator._purge_stale_callbacks()`: drop stale entries from
all three tables, then drop change tabs whose table became empty. -/
def purge_stale_callbacks (now : Int) (t : CallbackTables) : CallbackTables :=
  { pending := t.pending.filter (fun kv => !isStaleCb now kv.2),
    review_pending := t.review_pending.filter (fun kv => !isStaleCb now kv.2),
    change_pending :=
      (t.change_pending.map (fun tab =>
        (tab.1, tab.2.filter (fun kv => !isStaleCb now kv.2)))).filter
        (fun tab => !tab.2.isEmpty) }

/-! ## `app.AutoFixWindow` — the Self-Review orchestrator state machine

The fields of one run that the claims speak about (`_running`, `_cycle`,
`_max_cycles`, `_stage`, `_codex_initialized`, `_droid_initialized`,
`_scenarios`), plus `finished`, recording the `window.complete` /
`autofix-complete` notification emitted by `_complete(success, …)`
(`none` while no terminal notification has been emitted).  Each event of
`AutoFixEvent` replays the corresponding Python method at this level of
abstraction; timer callbacks are delivered as events. -/

inductive AutoFixStage where
  | idle
  | init
  | reviewing
  | selecting
  | fixing
  | checking
  deriving DecidableEq, Repr

structure AutoFixRun where
  running : Bool
  cycle : Nat
  maxCycles : Nat
  stage : AutoFixStage
  codexInit : Bool
  droidInit : Bool
  scenarios : ScenarioTable
  finished : Option Bool
  deriving DecidableEq, Repr

/-- `AutoFixWindow.__init__`: not running, cycle 0, max cycles 10,
stage `idle`, neither worker initialized. -/
def autofixInit (scens : ScenarioTable) : AutoFixRun :=
  { running := false, cycle := 0, maxCycles := 10, stage := .idle,
    codexInit := false, droidInit := false, scenarios := scens,
    finished := none }

/-- `AutoFixWindow.show()` as it affects the run state: sets
`self._running = True` on the freshly constructed window (one `show` per
instance; the window-building Cocoa code is out of scope). -/
def autofixStart (scens : ScenarioTable) : AutoFixRun :=
  { autofixInit scens with running := true }

/-- `AutoFixWindow._complete(success, …)`: cancel timers, stop, return to
`idle`, emit the completion notification. -/
def autofixComplete (success : Bool) (s : AutoFixRun) : AutoFixRun :=
  { s with running := false, stage := .idle, finished := some success }

/-- `AutoFixWindow._start_review_cycle()`: increment the cycle; terminal
failure once the count exceeds `maxCycles`; otherwise enter `reviewing`
and trigger the reviewer (`triggerOk` is `_trigger_codex_re_review`'s
result; on failure the run completes with an error). -/
def startReviewCycle (triggerOk : Bool) (s : AutoFixRun) : AutoFixRun :=
  if !s.running then s
  else
    let s1 := { s with cycle := s.cycle + 1 }
    if s1.maxCycles < s1.cycle then autofixComplete false s1
    else
      let s2 := { s1 with stage := .reviewing }
      if triggerOk then s2 else autofixComplete false s2

/-- `AutoFixWindow._on_review_complete(review_text)`: enter `selecting`,
run `decide_autofix_next`, and dispatch on its action.  The `continue`
branch enters `fixing` (the droid trigger result arrives later as a
`droidSendFailed` event if it fails). -/
def onReviewComplete (review_text : List Char) (s : AutoFixRun) : AutoFixRun :=
  if !s.running then s
  else
    let s1 := { s with stage := .selecting }
    match decide_autofix_next review_text s1.cycle s1.maxCycles s1.scenarios with
    | .stopNoScenarioMatch _ => autofixComplete false s1
    | .stopZeroCheckboxes _ => autofixComplete false s1
    | .stopMaxCycles _ _ => autofixComplete false s1
    | .complete _ => autofixComplete true s1
    | .continueFix _ _ _ => { s1 with stage := .fixing }

/-- `AutoFixWindow._on_fix_complete(…)`: enter `checking`; the next
review cycle starts from the 1-second timer (`nextCycle` event). -/
def onFixComplete (s : AutoFixRun) : AutoFixRun :=
  if !s.running then s else { s with stage := .checking }

/-- `AutoFixWindow._check_both_ready()`. -/
def checkBothReady (triggerOk : Bool) (s : AutoFixRun) : AutoFixRun :=
  if !s.running then s
  else if s.codexInit && s.droidInit then startReviewCycle triggerOk s
  else s

/-- The events driving one `AutoFixWindow` run.  `reviewDone` and
`fixDone` carry the `on_hook_event` stage guards (`_stage == 'reviewing'`
/ `_stage == 'fixing'`); `triggerOk` parameters stand for the success of
the frontend trigger dispatched during the transition. -/
inductive AutoFixEvent where
  | startLoop
  | codexReady (triggerOk : Bool)
  | droidReady (triggerOk : Bool)
  | initTimeoutFired
  | reviewDone (review_text : List Char)
  | fixDone
  | nextCycle (triggerOk : Bool)
  | codexSendFailed
  | droidSendFailed
  | stageTimeoutFired (armedCycle : Nat)
  | manualStop

/-- One transition of the orchestrator. -/
def autofixStep (s : AutoFixRun) (e : AutoFixEvent) : AutoFixRun :=
  match e with
  | .startLoop => if !s.running then s else { s with stage := .init }
  | .codexReady triggerOk =>
    if !s.running then s
    else if s.codexInit then s
    else checkBothReady triggerOk { s with codexInit := true }
  | .droidReady triggerOk =>
    if !s.running then s
    else if s.droidInit then s
    else checkBothReady triggerOk { s with droidInit := true }
  | .initTimeoutFired =>
    if !s.running then s
    else if !s.codexInit || !s.droidInit then autofixComplete false s
    else s
  | .reviewDone text =>
    if s.stage = .reviewing then onReviewComplete text s else s
  | .fixDone =>
    if s.stage = .fixing then onFixComplete s else s
  | .nextCycle triggerOk =>
    if !s.running then s else startReviewCycle triggerOk s
  | .codexSendFailed =>
    if !s.running then s
    else if s.stage = .reviewing then autofixComplete false s
    else s
  | .droidSendFailed =>
    if !s.running then s
    else if s.stage = .fixing then autofixComplete false s
    else s
  | .stageTimeoutFired armedCycle =>
    if !s.running then s
    else if s.cycle ≠ armedCycle then s
    else if s.stage = .reviewing || s.stage = .fixing then autofixComplete false s
    else s
  | .manualStop =>
    if !s.running then s else { s with running := false, stage := .idle }

/-! ## Helper lemmas about `lastN` and the buffer cap -/

theorem lastN_eq_reverse_take (n : Nat) (l : List Char) :
    lastN n l = (l.reverse.take n).reverse := by
  rw [lastN, List.take_reverse, List.reverse_reverse]

theorem lastN_length_le (n : Nat) (l : List Char) :
    (lastN n l).length ≤ n := by
  rw [lastN_eq_reverse_take]
  simp only [List.length_reverse]
  exact List.length_take_le n l.reverse

theorem lastN_of_length_le {n : Nat} {l : List Char} (h : l.length ≤ n) :
    lastN n l = l := by
  simp [lastN, Nat.sub_eq_zero_of_le h]

/-- Re-capping an already capped prefix does not change the trailing
window: `lastN n ((lastN n x) ++ y) = lastN n (x ++ y)`. -/
theorem lastN_append_lastN (n : Nat) (x y : List Char) :
    lastN n (lastN n x ++ y) = lastN n (x ++ y) := by
  simp only [lastN_eq_reverse_take, List.reverse_append, List.reverse_reverse,
    List.take_append_eq_append_take, List.take_take, List.length_reverse,
    List.length_take]
  rw [min_eq_left (Nat.sub_le n y.length)]

theorem capCallbackBuffer_eq_lastN (buf : List Char) :
    capCallbackBuffer buf = lastN CB_MAX_BUFFER buf := by
  unfold capCallbackBuffer lastN
  split
  · rfl
  · rename_i h
    push_neg at h
    rw [Nat.sub_eq_zero_of_le h, List.drop_zero]

theorem appendAndCap_lastN (b c : List Char) :
    appendAndCap (lastN CB_MAX_BUFFER b) c = lastN CB_MAX_BUFFER (b ++ c) := by
  rw [appendAndCap, capCallbackBuffer_eq_lastN, lastN_append_lastN]

theorem foldl_appendAndCap (chunks : List (List Char)) (b : List Char) :
    chunks.foldl appendAndCap (lastN CB_MAX_BUFFER b) =
      lastN CB_MAX_BUFFER (b ++ chunks.flatten) := by
  induction chunks generalizing b with
  | nil => rw [List.foldl_nil, List.flatten_nil, List.append_nil]
  | cons c cs ih =>
    rw [List.foldl_cons, List.flatten_cons, appendAndCap_lastN, ih (b ++ c),
      List.append_assoc]

/-- **C7.**  For every pending completion entry and every sequence of
appended output chunks, processing each chunk as `_on_terminal_output`
does (append, then `_cap_callback_buffer`) keeps the buffer within the
512 KiB cap at every step, and the buffer always equals the trailing
`CB_MAX_BUFFER`-character window of the full concatenation of all chunks
appended so far — in particular, once the total appended text exceeds
the cap, the buffer is exactly the trailing cap-sized tail of the
concatenation, and while it does not exceed the cap the buffer is the
whole concatenation. -/
theorem pendingBuffer_cap_invariant (chunks : List (List Char)) :
    (∀ n : Nat,
      ((chunks.take n).foldl appendAndCap []).length ≤ CB_MAX_BUFFER) ∧
    chunks.foldl appendAndCap [] =
      lastN CB_MAX_BUFFER chunks.flatten ∧
    (CB_MAX_BUFFER < chunks.flatten.length →
      chunks.foldl appendAndCap [] =
        chunks.flatten.drop (chunks.flatten.length - CB_MAX_BUFFER)) ∧
    (chunks.flatten.length ≤ CB_MAX_BUFFER →
      chunks.foldl appendAndCap [] = chunks.flatten) := by
  have key : ∀ l : List (List Char),
      l.foldl appendAndCap [] = lastN CB_MAX_BUFFER l.flatten := by
    intro l
    have h0 : ([] : List Char) = lastN CB_MAX_BUFFER [] := rfl
    rw [h0, foldl_appendAndCap, List.nil_append]
  refine ⟨?_, key chunks, ?_, ?_⟩
  · intro n
    rw [key (chunks.take n)]
    exact lastN_length_le _ _
  · intro _
    rw [key chunks, lastN]
  · intro h
    rw [key chunks, lastN_of_length_le h]

/-! ## C5: `write` after `kill` -/

/-- **C5.**  `TerminalSession.write` never raises, for any prior state and
any OS-error behaviour (the `try/except OSError` catches the only
exception `os.write` can produce here); and on a session that is not
alive — in particular on any session on which `kill()` has run, which
marks it dead — `write` performs no OS write at all: the payload is
silently dropped. -/
theorem write_never_raises_and_dead_drops (s : TerminalSession)
    (errs : Nat → Bool) (data : List Nat) :
    (TerminalSession.write s errs data).isOk = true ∧
    TerminalSession.write { s with alive := false } errs data = .ok [] ∧
    TerminalSession.write (TerminalSession.kill s) errs data = .ok [] := by
  refine ⟨?_, ?_, ?_⟩
  · unfold TerminalSession.write osWriteCall
    by_cases hc : (s.master_fd.isSome && s.alive) = true
    · by_cases hlen : data.length ≤ PTY_CHUNK_SIZE
      · by_cases herr : errs 0 = true <;>
          simp [hc, hlen, herr, Except.isOk, Except.toBool]
      · simp [hc, hlen, Except.isOk, Except.toBool]
    · simp [hc, Except.isOk, Except.toBool]
  · simp [TerminalSession.write]
  · simp [TerminalSession.write, TerminalSession.kill]

/-! ## C8: the staleness sweep -/

theorem notStale_iff (now : Int) (info : CbInfo) :
    (!isStaleCb now info) = true ↔ now - info.created_at ≤ CB_TIMEOUT_SECS := by
  simp [isStaleCb, not_lt]

/-- The `(tab, callback-id, entry)` triples of the per-tab change tables,
flattened (tab-level structure forgotten, entries kept). -/
def changeEntries (cp : List (String × List (String × CbInfo))) :
    List (String × String × CbInfo) :=
  (cp.map (fun tab => tab.2.map (fun kv => (tab.1, kv.1, kv.2)))).flatten

/-- **C8.**  One run of the staleness sweep (`_purge_stale_callbacks`)
over the main, review and per-tab change pending tables removes exactly
the entries whose age exceeds `CB_TIMEOUT_SECS = 300` seconds; in
particular an entry created at time `T` is stale for a sweep at
`T + 301` but not for a sweep at `T + 100`.  (The 60-second sweep cadence
is real-time scheduling, outside this model; this theorem characterises
what any single sweep removes.) -/
theorem purge_removes_exactly_stale (t : CallbackTables) (now : Int) :
    (∀ id info, ((id, info) ∈ (purge_stale_callbacks now t).pending ↔
      (id, info) ∈ t.pending ∧ now - info.created_at ≤ CB_TIMEOUT_SECS)) ∧
    (∀ id info, ((id, info) ∈ (purge_stale_callbacks now t).review_pending ↔
      (id, info) ∈ t.review_pending ∧ now - info.created_at ≤ CB_TIMEOUT_SECS)) ∧
    (∀ tab id info,
      ((tab, id, info) ∈ changeEntries (purge_stale_callbacks now t).change_pending ↔
        (tab, id, info) ∈ changeEntries t.change_pending ∧
          now - info.created_at ≤ CB_TIMEOUT_SECS)) ∧
    (∀ (pat : String) (buf : List Char) (tc : Int),
      isStaleCb (tc + 301) ⟨pat, buf, tc⟩ = true ∧
      isStaleCb (tc + 100) ⟨pat, buf, tc⟩ = false) := by
  refine ⟨?_, ?_, ?_, ?_⟩
  · intro id info
    rw [purge_stale_callbacks]
    simp only [List.mem_filter, notStale_iff]
  · intro id info
    rw [purge_stale_callbacks]
    simp only [List.mem_filter, notStale_iff]
  · intro tab id info
    rw [purge_stale_callbacks]
    simp only [changeEntries, List.mem_flatten, List.mem_map, List.mem_filter]
    constructor
    · rintro ⟨l, ⟨⟨k, sub⟩, ⟨⟨⟨k0, sub0⟩, hmem0, heq0⟩, -⟩, rfl⟩, hin⟩
      obtain ⟨⟨id1, info1⟩, hkv, heqtrip⟩ := List.mem_map.mp hin
      cases heq0
      obtain ⟨hkv0, hfresh⟩ := List.mem_filter.mp hkv
      cases heqtrip
      exact ⟨⟨(k0, sub0).2.map (fun kv => ((k0, sub0).1, kv.1, kv.2)),
        ⟨(k0, sub0), hmem0, rfl⟩, List.mem_map.mpr ⟨(id1, info1), hkv0, rfl⟩⟩,
        (notStale_iff _ _).mp hfresh⟩
    · rintro ⟨⟨l, ⟨⟨k0, sub0⟩, hmem0, rfl⟩, hin⟩, hfresh⟩
      obtain ⟨⟨id1, info1⟩, hkv0, heqtrip⟩ := List.mem_map.mp hin
      cases heqtrip
      refine ⟨(k0, sub0.filter (fun kv => !isStaleCb now kv.2)).2.map
        (fun kv => ((k0, sub0.filter (fun kv => !isStaleCb now kv.2)).1, kv.1, kv.2)),
        ⟨(k0, sub0.filter (fun kv => !isStaleCb now kv.2)),
          ⟨⟨(k0, sub0), hmem0, rfl⟩, ?_⟩, rfl⟩, ?_⟩
      · have hkv1 : (id1, info1) ∈ sub0.filter (fun kv => !isStaleCb now kv.2) :=
          List.mem_filter.mpr ⟨hkv0, (notStale_iff _ _).mpr hfresh⟩
        simp only [Bool.not_eq_true']
        cases hE : (sub0.filter (fun kv => !isStaleCb now kv.2)).isEmpty with
        | false => rfl
        | true =>
          rw [List.isEmpty_eq_true] at hE
          rw [hE] at hkv1
          cases hkv1
      · exact List.mem_map.mpr
          ⟨(id1, info1), List.mem_filter.mpr ⟨hkv0, (notStale_iff _ _).mpr hfresh⟩, rfl⟩
  · intro pat buf tc
    constructor
    · simp only [isStaleCb, CB_TIMEOUT_SECS, decide_eq_true_eq]
      omega
    · simp only [isStaleCb, CB_TIMEOUT_SECS, decide_eq_false_iff_not]
      omega

/-! ## C10: the extra completion indicators of `is_codex_turn_complete` -/

theorem icc_true_of_eventHit {data : CodexEvent}
    (h : (eventCandidates data).any eventCandidateHit = true) :
    is_codex_turn_complete data = true := by
  unfold is_codex_turn_complete
  simp [h]

theorem icc_true_of_statusHit {data : CodexEvent}
    (h : (statusCandidates data).any statusCandidateHit = true) :
    is_codex_turn_complete data = true := by
  unfold is_codex_turn_complete
  simp [h]

theorem pyEndsWith_isEmpty_false {l s : List Char}
    (h : pyEndsWith l s = true) (hs : s.isEmpty = false) :
    l.isEmpty = false := by
  cases l with
  | cons c rest => rfl
  | nil =>
    cases s with
    | nil => simp at hs
    | cons c rest =>
      rw [pyEndsWith] at h
      have := (List.isSuffixOf_iff_suffix.mp h).length_le
      simp at this

/-- **C10.**  `is_codex_turn_complete` accepts more than the indicators
spec §6 lists: any status field (top level or payload) whose normalized
token is `success` or `ok` counts as completion, and any recognized
event-name candidate counts when its normalized token ends in
`-complete`/`-completed`/`-done`/`-finished`, or its raw lowercased text
ends in the path suffix `/complete`/`/completed`/`/done`/`/finished`; in
particular `{'status': 'success'}` is a completed turn. -/
theorem icc_accepts_success_ok_and_suffixes (data : CodexEvent) :
    ((∃ st ∈ statusCandidates data,
        String.mk (normalize_event_token st) = "success" ∨
        String.mk (normalize_event_token st) = "ok") →
      is_codex_turn_complete data = true) ∧
    ((∃ cand ∈ eventCandidates data,
        pyEndsWith (normalize_event_token cand) "-complete".toList = true ∨
        pyEndsWith (normalize_event_token cand) "-completed".toList = true ∨
        pyEndsWith (normalize_event_token cand) "-done".toList = true ∨
        pyEndsWith (normalize_event_token cand) "-finished".toList = true ∨
        pyEndsWith (rawEventToken cand) "/complete".toList = true ∨
        pyEndsWith (rawEventToken cand) "/completed".toList = true ∨
        pyEndsWith (rawEventToken cand) "/done".toList = true ∨
        pyEndsWith (rawEventToken cand) "/finished".toList = true) →
      is_codex_turn_complete data = true) ∧
    is_codex_turn_complete { status := some "success" } = true := by
  refine ⟨?_, ?_, by decide⟩
  · rintro ⟨st, hmem, hok⟩
    apply icc_true_of_statusHit
    refine List.any_eq_true.mpr ⟨st, hmem, ?_⟩
    rw [statusCandidateHit]
    rcases hok with h | h <;> rw [h] <;> decide
  · rintro ⟨cand, hmem, hsuf⟩
    apply icc_true_of_eventHit
    refine List.any_eq_true.mpr ⟨cand, hmem, ?_⟩
    rcases hsuf with h | h | h | h | h | h | h | h <;>
      (try simp only [normalize_event_token] at h) <;>
      (have hne := pyEndsWith_isEmpty_false h (by rfl)) <;>
      (try simp at h) <;> (try simp at hne) <;>
      simp [eventCandidateHit, h, hne]

/-! ## C3: prompt-pattern matching rules -/

theorem isShellPromptChar_iff (c : Char) :
    isShellPromptChar c = true ↔ (c = '$' ∨ c = '%' ∨ c = '❯' ∨ c = '>') := by
  rw [isShellPromptChar]
  simp only [Bool.or_eq_true, decide_eq_true_eq, or_assoc]

theorem isDroidPromptChar_iff (c : Char) :
    isDroidPromptChar c = true ↔ (c = '>' ∨ c = '❯') := by
  rw [isDroidPromptChar]
  simp only [Bool.or_eq_true, decide_eq_true_eq]

theorem searchSuffixes_iff (atP : List Char → Bool) (l : List Char) :
    searchSuffixes atP l = true ↔
      ∃ pre post, l = pre ++ post ∧ atP post = true := by
  induction l with
  | nil =>
    rw [searchSuffixes]
    constructor
    · intro h
      exact ⟨[], [], rfl, h⟩
    · rintro ⟨pre, post, heq, h⟩
      obtain ⟨rfl, rfl⟩ : pre = [] ∧ post = [] := by
        cases pre
        · exact ⟨rfl, heq.symm⟩
        · cases heq
      exact h
  | cons c rest ih =>
    rw [searchSuffixes, Bool.or_eq_true, ih]
    constructor
    · rintro (h | ⟨pre, post, rfl, h⟩)
      · exact ⟨[], c :: rest, rfl, h⟩
      · exact ⟨c :: pre, post, rfl, h⟩
    · rintro ⟨pre, post, heq, h⟩
      cases pre with
      | nil =>
        cases heq
        exact Or.inl h
      | cons p pre2 =>
        cases heq
        exact Or.inr ⟨pre2, post, rfl, h⟩

theorem shellPromptAt_iff (l : List Char) :
    shellPromptAt l = true ↔
      ∃ c ws, l = c :: ws ∧ isShellPromptChar c = true ∧
        ∀ w ∈ ws, pyIsSpace w = true := by
  cases l with
  | nil => simp [shellPromptAt]
  | cons c ws =>
    rw [shellPromptAt, Bool.and_eq_true, List.all_eq_true]
    constructor
    · rintro ⟨h1, h2⟩
      exact ⟨c, ws, rfl, h1, h2⟩
    · rintro ⟨c2, ws2, heq, h1, h2⟩
      cases heq
      exact ⟨h1, h2⟩

theorem droidPromptAt_iff (l : List Char) :
    droidPromptAt l = true ↔
      (∃ c ws, l = c :: ws ∧ isDroidPromptChar c = true ∧
        ∀ w ∈ ws, pyIsSpace w = true) ∨
      ∃ post, l = "How can I help".toList ++ post := by
  rw [droidPromptAt.eq_def, Bool.or_eq_true, pyStartsWith,
    List.isPrefixOf_iff_prefix]
  constructor
  · rintro (h | h)
    · left
      cases l with
      | nil => cases h
      | cons c ws =>
        rw [Bool.and_eq_true, List.all_eq_true] at h
        exact ⟨c, ws, rfl, h.1, h.2⟩
    · right
      obtain ⟨post, hpost⟩ := h
      exact ⟨post, hpost.symm⟩
  · rintro (⟨c, ws, rfl, h1, h2⟩ | ⟨post, rfl⟩)
    · left
      rw [Bool.and_eq_true, List.all_eq_true]
      exact ⟨h1, h2⟩
    · right
      exact ⟨post, rfl⟩

/-- **C3 (counterexample).**  The code recognises only the literal
pattern strings `'shell'` and `'droid'`; an entry whose pattern is the
spec's name `'agent'` never matches, even on a tail that ends in `❯` or
contains "How can I help". -/
theorem agent_pattern_never_matches :
    patternMatched "agent" (promptTail "❯".toList) = false ∧
    promptTail "❯".toList = [] ++ '❯' :: [] ∧
    patternMatched "agent" (promptTail "How can I help".toList) = false ∧
    patternMatched "droid" (promptTail "❯".toList) = true ∧
    patternMatched "droid" (promptTail "How can I help".toList) = true := by
  decide

/-- **C3 (amended: the pattern the spec calls `agent` is spelled `droid`
in the code).**  Over the detection window `promptTail buffer` — the last
200 characters of the ANSI-stripped buffer — a `'shell'` entry matches
exactly when the tail ends with one of `$ % ❯ >` followed by optional
trailing whitespace, and a `'droid'` entry matches exactly when the tail
ends with `>` or `❯` (optional trailing whitespace) or contains the
literal substring "How can I help"; any other pattern string (including
`'agent'`) never matches. -/
theorem patternMatched_shell (tail : List Char) :
    patternMatched "shell" tail = shellPromptSearch tail := by
  rw [patternMatched, if_pos (by decide : (("shell" : String) == "shell") = true)]

theorem patternMatched_droid (tail : List Char) :
    patternMatched "droid" tail = droidPromptSearch tail := by
  rw [patternMatched, if_neg (by decide), if_pos (by decide : (("droid" : String) == "droid") = true)]

theorem promptPattern_match_rules (buffer : List Char) :
    (patternMatched "shell" (promptTail buffer) = true ↔
      ∃ pre c ws, promptTail buffer = pre ++ c :: ws ∧
        (c = '$' ∨ c = '%' ∨ c = '❯' ∨ c = '>') ∧
        ∀ w ∈ ws, pyIsSpace w = true) ∧
    (patternMatched "droid" (promptTail buffer) = true ↔
      ((∃ pre c ws, promptTail buffer = pre ++ c :: ws ∧
          (c = '>' ∨ c = '❯') ∧ ∀ w ∈ ws, pyIsSpace w = true) ∨
        ∃ pre post, promptTail buffer = pre ++ "How can I help".toList ++ post)) ∧
    (∀ (pat : String) (tail : List Char),
      pat ≠ "shell" → pat ≠ "droid" → patternMatched pat tail = false) := by
  refine ⟨?_, ?_, ?_⟩
  · rw [patternMatched_shell, shellPromptSearch, searchSuffixes_iff]
    constructor
    · rintro ⟨pre, post, heq, h⟩
      obtain ⟨c, ws, rfl, h1, h2⟩ := (shellPromptAt_iff post).mp h
      exact ⟨pre, c, ws, heq, (isShellPromptChar_iff c).mp h1, h2⟩
    · rintro ⟨pre, c, ws, heq, h1, h2⟩
      exact ⟨pre, c :: ws, heq,
        (shellPromptAt_iff _).mpr ⟨c, ws, rfl, (isShellPromptChar_iff c).mpr h1, h2⟩⟩
  · rw [patternMatched_droid, droidPromptSearch, searchSuffixes_iff]
    constructor
    · rintro ⟨pre, post, heq, h⟩
      rcases (droidPromptAt_iff post).mp h with ⟨c, ws, rfl, h1, h2⟩ | ⟨post2, rfl⟩
      · exact Or.inl ⟨pre, c, ws, heq, (isDroidPromptChar_iff c).mp h1, h2⟩
      · exact Or.inr ⟨pre, post2, by rw [heq, List.append_assoc]⟩
    · rintro (⟨pre, c, ws, heq, h1, h2⟩ | ⟨pre, post, heq⟩)
      · exact ⟨pre, c :: ws, heq,
          (droidPromptAt_iff _).mpr (Or.inl ⟨c, ws, rfl, (isDroidPromptChar_iff c).mpr h1, h2⟩)⟩
      · exact ⟨pre, "How can I help".toList ++ post, by rw [heq, List.append_assoc],
          (droidPromptAt_iff _).mpr (Or.inr ⟨post, rfl⟩)⟩
  · intro pat tail h1 h2
    rw [patternMatched]
    rw [if_neg (by simpa using h1), if_neg (by simpa using h2)]

/-! ## C4: a matching entry fires exactly once and is removed -/

theorem assoc_key_unique (l : List (String × CbInfo))
    (hnd : (l.map Prod.fst).Nodup) {id : String} {i1 i2 : CbInfo}
    (h1 : (id, i1) ∈ l) (h2 : (id, i2) ∈ l) : i1 = i2 := by
  induction l with
  | nil => cases h1
  | cons kv rest ih =>
    rw [List.map_cons, List.nodup_cons] at hnd
    rcases List.mem_cons.mp h1 with rfl | h1' <;>
      rcases List.mem_cons.mp h2 with heq | h2'
    · cases heq
      rfl
    · exact absurd (List.mem_map_of_mem Prod.fst h2') hnd.1
    · cases heq
      exact absurd (List.mem_map_of_mem Prod.fst h1') hnd.1
    · exact ih hnd.2 h1' h2'

theorem assoc_countP_key_pos (l : List (String × CbInfo)) (id : String)
    (info : CbInfo) (q : String × CbInfo → Bool)
    (hnd : (l.map Prod.fst).Nodup) (hmem : (id, info) ∈ l)
    (hq : q (id, info) = true) :
    l.countP (fun kv => kv.1 == id && q kv) = 1 := by
  induction l with
  | nil => cases hmem
  | cons kv rest ih =>
    rw [List.map_cons, List.nodup_cons] at hnd
    rw [List.countP_cons]
    rcases List.mem_cons.mp hmem with rfl | hmem'
    · have hz : rest.countP (fun kv => kv.1 == id && q kv) = 0 := by
        apply List.countP_eq_zero.mpr
        intro kv2 hkv2
        have hne : kv2.1 ≠ id := by
          intro he
          apply hnd.1
          show id ∈ List.map Prod.fst rest
          rw [← he]
          exact List.mem_map_of_mem Prod.fst hkv2
        simp [hne]
      rw [hz]
      simp [hq]
    · have hne : kv.1 ≠ id := fun he =>
        hnd.1 (by
          rw [he]
          exact List.mem_map_of_mem Prod.fst hmem')
      rw [ih hnd.2 hmem']
      simp [hne]

theorem assoc_countP_key_zero (l : List (String × CbInfo)) (id : String)
    (q : String × CbInfo → Bool) (hid : id ∉ l.map Prod.fst) :
    l.countP (fun kv => kv.1 == id && q kv) = 0 := by
  apply List.countP_eq_zero.mpr
  intro kv hkv
  have hne : kv.1 ≠ id := by
    intro he
    apply hid
    rw [← he]
    exact List.mem_map_of_mem Prod.fst hkv
  simp [hne]

/-- The per-chunk buffer update applied to one table entry
(`cb_info['buffer'] += text` then `_cap_callback_buffer(cb_info)`). -/
def updateEntry (text : List Char) (kv : String × CbInfo) : String × CbInfo :=
  (kv.1, { kv.2 with buffer := appendAndCap kv.2.buffer text })

theorem processPendingChunk_eq (table : List (String × CbInfo)) (text : List Char) :
    processPendingChunk table text =
      ((table.map (updateEntry text)).filter (fun kv => !cbMatchedNow kv.2),
       ((table.map (updateEntry text)).filter (fun kv => cbMatchedNow kv.2)).map
         (fun kv => ⟨kv.1, kv.2.buffer⟩)) := rfl

theorem updateEntry_keys (table : List (String × CbInfo)) (text : List Char) :
    (table.map (updateEntry text)).map Prod.fst = table.map Prod.fst := by
  rw [List.map_map]
  rfl

/-- Length of the `lastN` window: the minimum of the window size and the
list length. -/
theorem lastN_length (n : Nat) (l : List Char) :
    (lastN n l).length = min n l.length := by
  rw [lastN, List.length_drop]
  omega

/-- Each newline escapes to the two characters backslash-`n`, so the
escaped form of a run of newlines is twice as long. -/
theorem jsEscape_replicate_newline_length (n : Nat) :
    (jsEscape (List.replicate n '\n')).length = 2 * n := by
  induction n with
  | zero => rfl
  | succ k ih =>
    rw [List.replicate_succ]
    have hcons : jsEscape ('\n' :: List.replicate k '\n') =
        '\\' :: 'n' :: jsEscape (List.replicate k '\n') := rfl
    rw [hcons, List.length_cons, List.length_cons, ih]
    omega

/-- Counterexample for C4's delivery clause: on a buffer of 5001 newline
characters the string `_fire_callback` delivers (10000 characters: the
tail of the 10002-character escaped form) is neither the buffer truncated
to its last 10000 characters (the whole 5001-character buffer, since it is
short enough) nor the JS-escape of that truncation (10002 characters) —
the code truncates AFTER escaping, so the claimed delivery is wrong
whenever the buffer's tail contains a backslash, quote, newline or
carriage return. -/
theorem fire_callback_truncates_escaped_not_buffer :
    fireCallbackDelivered (List.replicate 5001 '\n') ≠
      lastN 10000 (List.replicate 5001 '\n') ∧
    fireCallbackDelivered (List.replicate 5001 '\n') ≠
      jsEscape (lastN 10000 (List.replicate 5001 '\n')) := by
  have hesc : (jsEscape (List.replicate 5001 '\n')).length = 10002 :=
    jsEscape_replicate_newline_length 5001
  have hdel : (fireCallbackDelivered (List.replicate 5001 '\n')).length
      = 10000 := by
    simp only [fireCallbackDelivered]
    rw [if_pos (show 10000 < (jsEscape (List.replicate 5001 '\n')).length
      by omega)]
    rw [lastN_length, hesc]
    omega
  have hbuf : lastN 10000 (List.replicate 5001 '\n')
      = List.replicate 5001 '\n' :=
    lastN_of_length_le (by rw [List.length_replicate]; omega)
  constructor
  · intro h
    have hl := congrArg List.length h
    rw [hdel, hbuf, List.length_replicate] at hl
    exact absurd hl (by decide)
  · intro h
    have hl := congrArg List.length h
    rw [hdel, hbuf, hesc] at hl
    exact absurd hl (by decide)

set_option maxRecDepth 4000 in
/-- **C4 (amended).**  When a pending entry's match condition becomes true
on a chunk, the entry fires exactly once, the fired record carries the
unstripped (appended-and-capped) accumulated buffer, the entry is removed
from the table, and no later chunk (identical or not) fires it again; the
string delivered to the JS callback is the JS-escaped unstripped buffer
truncated to its last 10000 characters (`_fire_callback` escapes first,
then truncates — not, as originally claimed, the buffer itself truncated
to its last 10000 characters). -/
theorem pendingCallback_fires_once_then_removed
    (table : List (String × CbInfo)) (text : List Char) (id : String)
    (info : CbInfo)
    (hnd : (table.map Prod.fst).Nodup)
    (hmem : (id, info) ∈ table)
    (hmatch : patternMatched info.pattern
      (promptTail (appendAndCap info.buffer text)) = true) :
    (processPendingChunk table text).2.countP (fun ev => ev.cb_id == id) = 1 ∧
    (⟨id, appendAndCap info.buffer text⟩ : FiredCallback) ∈
      (processPendingChunk table text).2 ∧
    id ∉ (processPendingChunk table text).1.map Prod.fst ∧
    (∀ text2 : List Char,
      (processPendingChunk (processPendingChunk table text).1 text2).2.countP
        (fun ev => ev.cb_id == id) = 0) ∧
    fireCallbackDelivered (appendAndCap info.buffer text) =
      lastN 10000 (jsEscape (appendAndCap info.buffer text)) := by
  set info2 : CbInfo := { info with buffer := appendAndCap info.buffer text } with hinfo2
  have hmem2 : (id, info2) ∈ table.map (updateEntry text) :=
    List.mem_map_of_mem (updateEntry text) hmem
  have hnd2 : ((table.map (updateEntry text)).map Prod.fst).Nodup := by
    rw [updateEntry_keys]
    exact hnd
  have hm2 : cbMatchedNow info2 = true := hmatch
  refine ⟨?_, ?_, ?_, ?_, ?_⟩
  · rw [processPendingChunk_eq]
    rw [List.countP_map, List.countP_filter]
    exact assoc_countP_key_pos _ id info2 (fun kv => cbMatchedNow kv.2) hnd2 hmem2 hm2
  · rw [processPendingChunk_eq]
    exact List.mem_map_of_mem _ (List.mem_filter.mpr ⟨hmem2, hm2⟩)
  · rw [processPendingChunk_eq]
    intro hin
    obtain ⟨kv, hkv, hkey⟩ := List.mem_map.mp hin
    obtain ⟨hkv2, hnm⟩ := List.mem_filter.mp hkv
    have hkventry : (id, kv.2) ∈ table.map (updateEntry text) := by
      rw [← hkey, Prod.mk.eta]
      exact hkv2
    have : kv.2 = info2 := assoc_key_unique _ hnd2 hkventry hmem2
    rw [this, hm2] at hnm
    cases hnm
  · intro text2
    have hidout : id ∉ (processPendingChunk table text).1.map Prod.fst := by
      rw [processPendingChunk_eq]
      intro hin
      obtain ⟨kv, hkv, hkey⟩ := List.mem_map.mp hin
      obtain ⟨hkv2, hnm⟩ := List.mem_filter.mp hkv
      have hkventry : (id, kv.2) ∈ table.map (updateEntry text) := by
        rw [← hkey, Prod.mk.eta]
        exact hkv2
      have : kv.2 = info2 := assoc_key_unique _ hnd2 hkventry hmem2
      rw [this, hm2] at hnm
      cases hnm
    rw [processPendingChunk_eq]
    rw [List.countP_map, List.countP_filter]
    apply assoc_countP_key_zero
    rw [updateEntry_keys]
    exact hidout
  · rw [fireCallbackDelivered]
    split
    · rfl
    · rename_i h
      push_neg at h
      exact (lastN_of_length_le h).symm

/-- Witness for C4: one `shell` entry, one chunk ending in `$ `. -/
theorem pendingCallback_fires_once_then_removed_witness :
    (processPendingChunk [("cb1", ⟨"shell", [], 0⟩)] "$ ".toList).2.countP
        (fun ev => ev.cb_id == "cb1") = 1 ∧
    (⟨"cb1", appendAndCap [] "$ ".toList⟩ : FiredCallback) ∈
      (processPendingChunk [("cb1", ⟨"shell", [], 0⟩)] "$ ".toList).2 ∧
    "cb1" ∉ (processPendingChunk [("cb1", ⟨"shell", [], 0⟩)]
      "$ ".toList).1.map Prod.fst ∧
    (∀ text2 : List Char,
      (processPendingChunk
        (processPendingChunk [("cb1", ⟨"shell", [], 0⟩)] "$ ".toList).1
        text2).2.countP (fun ev => ev.cb_id == "cb1") = 0) ∧
    fireCallbackDelivered (appendAndCap [] "$ ".toList) =
      lastN 10000 (jsEscape (appendAndCap [] "$ ".toList)) :=
  pendingCallback_fires_once_then_removed [("cb1", ⟨"shell", [], 0⟩)]
    "$ ".toList "cb1" ⟨"shell", [], 0⟩ (by decide) (by decide) (by decide)

/-! ## C6: chunked write refines a single write -/

theorem intersperse_cons_of_ne_nil {α : Type} (sep a : α) (l : List α)
    (h : l ≠ []) :
    List.intersperse sep (a :: l) = a :: sep :: List.intersperse sep l := by
  cases l with
  | nil => exact absurd rfl h
  | cons b t => rw [List.intersperse_cons_cons]

theorem ptyChunks_nil : ptyChunks [] = [] := by
  rw [ptyChunks]
  rfl

theorem ptyChunks_ne_nil {data : List Nat} (h : data ≠ []) :
    ptyChunks data ≠ [] := by
  rw [ptyChunks, dif_neg (by simpa using h)]
  simp

theorem ptyChunks_flatten_aux :
    ∀ (n : Nat) (data : List Nat), data.length ≤ n →
      (ptyChunks data).flatten = data := by
  intro n
  induction n with
  | zero =>
    intro data h
    have hdata : data = [] := List.length_eq_zero.mp (Nat.le_zero.mp h)
    subst hdata
    rw [ptyChunks_nil]
    rfl
  | succ n ih =>
    intro data h
    by_cases hne : data = []
    · subst hne
      rw [ptyChunks_nil]
      rfl
    · rw [ptyChunks, dif_neg (by simpa using hne), List.flatten_cons,
        ih (data.drop PTY_CHUNK_SIZE) ?hlen, List.take_append_drop]
      case hlen =>
        have hpos : 0 < data.length := List.length_pos.mpr hne
        rw [List.length_drop]
        simp only [PTY_CHUNK_SIZE]
        omega

theorem ptyChunks_flatten (data : List Nat) : (ptyChunks data).flatten = data :=
  ptyChunks_flatten_aux data.length data (le_refl _)

theorem ptyChunks_length_le_aux :
    ∀ (n : Nat) (data : List Nat), data.length ≤ n →
      ∀ c ∈ ptyChunks data, c.length ≤ PTY_CHUNK_SIZE := by
  intro n
  induction n with
  | zero =>
    intro data h c hc
    have hdata : data = [] := List.length_eq_zero.mp (Nat.le_zero.mp h)
    subst hdata
    rw [ptyChunks_nil] at hc
    cases hc
  | succ n ih =>
    intro data h c hc
    by_cases hne : data = []
    · subst hne
      rw [ptyChunks_nil] at hc
      cases hc
    · rw [ptyChunks, dif_neg (by simpa using hne)] at hc
      rcases List.mem_cons.mp hc with rfl | hc2
      · calc (data.take PTY_CHUNK_SIZE).length
            = min PTY_CHUNK_SIZE data.length := List.length_take _ _
          _ ≤ PTY_CHUNK_SIZE := Nat.min_le_left _ _
      · refine ih (data.drop PTY_CHUNK_SIZE) ?_ c hc2
        have hpos : 0 < data.length := List.length_pos.mpr hne
        rw [List.length_drop]
        simp only [PTY_CHUNK_SIZE]
        omega

theorem osWriteCall_ok {errs : Nat → Bool} (i : Nat) (h : errs i = false)
    (d : List Nat) : osWriteCall errs i d = .ok (.osWrite d) := by
  rw [osWriteCall, if_neg]
  rw [h]
  exact Bool.false_ne_true

theorem writeChunkedGo_no_error_aux (errs : Nat → Bool)
    (herr : ∀ i, errs i = false) :
    ∀ (n : Nat) (data : List Nat) (i : Nat), data.length ≤ n →
      writeChunkedGo true errs i data =
        List.intersperse (.sleepMs PTY_CHUNK_DELAY_MS)
          ((ptyChunks data).map PtyEvent.osWrite) := by
  intro n
  induction n with
  | zero =>
    intro data i h
    have hdata : data = [] := List.length_eq_zero.mp (Nat.le_zero.mp h)
    subst hdata
    rw [writeChunkedGo, ptyChunks_nil]
    rfl
  | succ n ih =>
    intro data i h
    by_cases hne : data = []
    · subst hne
      rw [writeChunkedGo, ptyChunks_nil]
      rfl
    · have hcond : ¬ ((data.isEmpty || !true) = true) := by simpa using hne
      rw [writeChunkedGo, dif_neg hcond, ptyChunks, dif_neg (by simpa using hne)]
      simp only [osWriteCall_ok i (herr i)]
      have hlen : (data.drop PTY_CHUNK_SIZE).length ≤ n := by
        have hpos : 0 < data.length := List.length_pos.mpr hne
        rw [List.length_drop]
        simp only [PTY_CHUNK_SIZE]
        omega
      by_cases hrest : (data.drop PTY_CHUNK_SIZE) = []
      · rw [if_pos (by simpa using hrest), hrest, ptyChunks_nil, List.map_cons,
          List.map_nil, List.intersperse_singleton]
      · rw [if_neg (by simpa using hrest), List.map_cons,
          intersperse_cons_of_ne_nil _ _ _
            (by
              intro hmapnil
              exact ptyChunks_ne_nil hrest (List.map_eq_nil_iff.mp hmapnil)),
          ih (data.drop PTY_CHUNK_SIZE) (i + 1) hlen]

/-- **C6.**  For a live session with no OS write error, `write` emits a
sequence of `os.write` chunks of at most `PTY_CHUNK_SIZE = 400` bytes with
a `PTY_CHUNK_DELAY_MS = 5` ms sleep between consecutive chunks, whose
concatenation is byte-identical and order-preserving with the payload; a
payload of at most 400 bytes goes out as one direct write. -/
theorem write_chunked_refines_unchunked (s : TerminalSession)
    (errs : Nat → Bool) (data : List Nat)
    (halive : s.alive = true) (hfd : s.master_fd.isSome = true)
    (herr : ∀ i, errs i = false) :
    ∃ cs : List (List Nat),
      TerminalSession.write s errs data =
        .ok (List.intersperse (.sleepMs PTY_CHUNK_DELAY_MS)
          (cs.map PtyEvent.osWrite)) ∧
      cs.flatten = data ∧
      (∀ c ∈ cs, c.length ≤ PTY_CHUNK_SIZE) ∧
      (data.length ≤ PTY_CHUNK_SIZE → cs = [data]) := by
  rw [TerminalSession.write]
  rw [if_pos (by rw [halive, hfd]; rfl)]
  by_cases hlen : data.length ≤ PTY_CHUNK_SIZE
  · refine ⟨[data], ?_, by simp, ?_, fun _ => rfl⟩
    · rw [if_pos hlen, osWriteCall_ok 0 (herr 0)]
      rw [List.map_cons, List.map_nil, List.intersperse_singleton]
    · intro c hc
      rcases List.mem_cons.mp hc with rfl | hc2
      · exact hlen
      · cases hc2
  · refine ⟨ptyChunks data, ?_, ptyChunks_flatten data,
      ptyChunks_length_le_aux data.length data (le_refl _), fun h => absurd h hlen⟩
    rw [if_neg hlen, halive,
      writeChunkedGo_no_error_aux errs herr data.length data 0 (le_refl _)]

/-- Witness for C6: a live session, no OS errors, and a 500-byte payload
(so the chunked path is exercised). -/
theorem write_chunked_refines_unchunked_witness :
    ∃ cs : List (List Nat),
      TerminalSession.write ⟨some 3, true⟩ (fun _ => false)
          (List.replicate 500 7) =
        .ok (List.intersperse (.sleepMs PTY_CHUNK_DELAY_MS)
          (cs.map PtyEvent.osWrite)) ∧
      cs.flatten = List.replicate 500 7 ∧
      (∀ c ∈ cs, c.length ≤ PTY_CHUNK_SIZE) ∧
      ((List.replicate 500 7).length ≤ PTY_CHUNK_SIZE →
        cs = [List.replicate 500 7]) :=
  write_chunked_refines_unchunked ⟨some 3, true⟩ (fun _ => false)
    (List.replicate 500 7) rfl rfl (fun _ => rfl)

/-! ## C9: cycle count monotone and bounded -/

theorem startReviewCycle_cycle_le (t : Bool) (s : AutoFixRun) :
    s.cycle ≤ (startReviewCycle t s).cycle := by
  rw [startReviewCycle]
  dsimp only
  split
  · exact le_refl _
  · split
    · simp [autofixComplete]
    · split <;> simp [autofixComplete]

theorem checkBothReady_cycle_le (t : Bool) (s : AutoFixRun) :
    s.cycle ≤ (checkBothReady t s).cycle := by
  rw [checkBothReady]
  split
  · exact le_refl _
  · split
    · exact startReviewCycle_cycle_le t s
    · exact le_refl _

theorem onReviewComplete_cycle (text : List Char) (s : AutoFixRun) :
    (onReviewComplete text s).cycle = s.cycle := by
  rw [onReviewComplete]
  dsimp only
  split
  · rfl
  · split <;> simp [autofixComplete]

theorem onFixComplete_cycle (s : AutoFixRun) :
    (onFixComplete s).cycle = s.cycle := by
  rw [onFixComplete]
  split <;> rfl

theorem startReviewCycle_inv (t : Bool) (s : AutoFixRun)
    (hinv : s.running = true → s.cycle ≤ s.maxCycles) :
    (startReviewCycle t s).running = true →
      (startReviewCycle t s).cycle ≤ (startReviewCycle t s).maxCycles := by
  rw [startReviewCycle]
  dsimp only
  split
  · exact hinv
  · split
    · intro hrun
      simp [autofixComplete] at hrun
    · rename_i hnot
      push_neg at hnot
      split
      · intro _
        exact hnot
      · intro hrun
        simp [autofixComplete] at hrun

theorem checkBothReady_inv (t : Bool) (s : AutoFixRun)
    (hinv : s.running = true → s.cycle ≤ s.maxCycles) :
    (checkBothReady t s).running = true →
      (checkBothReady t s).cycle ≤ (checkBothReady t s).maxCycles := by
  rw [checkBothReady]
  split
  · exact hinv
  · split
    · exact startReviewCycle_inv t s hinv
    · exact hinv

theorem onReviewComplete_inv (text : List Char) (s : AutoFixRun)
    (hinv : s.running = true → s.cycle ≤ s.maxCycles) :
    (onReviewComplete text s).running = true →
      (onReviewComplete text s).cycle ≤ (onReviewComplete text s).maxCycles := by
  rw [onReviewComplete]
  dsimp only
  split
  · exact hinv
  · split <;> intro hrun <;>
      first
        | exact hinv hrun
        | simp [autofixComplete] at hrun

theorem onFixComplete_inv (s : AutoFixRun)
    (hinv : s.running = true → s.cycle ≤ s.maxCycles) :
    (onFixComplete s).running = true →
      (onFixComplete s).cycle ≤ (onFixComplete s).maxCycles := by
  rw [onFixComplete]
  split <;> exact hinv

/-- **C9.**  Across every orchestrator transition the cycle count is
monotonically non-decreasing; the invariant "while the run is live, the
cycle count never exceeds `maxCycles`" holds initially (with the default
`maxCycles = 10`) and is preserved by every transition; and when a
review completes with `decide_autofix_next` returning
`stop(max_cycles)` (P0/P1 items remaining at the cycle cap), the run
terminates — running flag cleared, stage back to `idle`, a failure
completion emitted — instead of starting another review/fix cycle. -/
theorem autofix_cycle_monotone_and_bounded (s : AutoFixRun) (e : AutoFixEvent) :
    s.cycle ≤ (autofixStep s e).cycle ∧
    ((s.running = true → s.cycle ≤ s.maxCycles) →
      (autofixStep s e).running = true →
        (autofixStep s e).cycle ≤ (autofixStep s e).maxCycles) ∧
    (∀ scens : ScenarioTable, (autofixStart scens).maxCycles = 10 ∧
      (autofixStart scens).running = true ∧
      (autofixStart scens).cycle ≤ (autofixStart scens).maxCycles) ∧
    (∀ (text : List Char) (c r : Nat), s.running = true → s.stage = .reviewing →
      decide_autofix_next text s.cycle s.maxCycles s.scenarios =
        .stopMaxCycles c r →
      (autofixStep s (.reviewDone text)).running = false ∧
      (autofixStep s (.reviewDone text)).stage = .idle ∧
      (autofixStep s (.reviewDone text)).finished = some false) := by
  refine ⟨?_, ?_, ?_, ?_⟩
  · cases e <;> simp only [autofixStep]
    case startLoop => split <;> exact le_refl _
    case codexReady t =>
      split
      · exact le_refl _
      · split
        · exact le_refl _
        · simpa using checkBothReady_cycle_le t
            { s with codexInit := true }
    case droidReady t =>
      split
      · exact le_refl _
      · split
        · exact le_refl _
        · simpa using checkBothReady_cycle_le t
            { s with droidInit := true }
    case initTimeoutFired =>
      split
      · exact le_refl _
      · split <;> simp [autofixComplete]
    case reviewDone text =>
      split
      · exact le_of_eq (onReviewComplete_cycle text s).symm
      · exact le_refl _
    case fixDone =>
      split
      · exact le_of_eq (onFixComplete_cycle s).symm
      · exact le_refl _
    case nextCycle t =>
      split
      · exact le_refl _
      · exact startReviewCycle_cycle_le t s
    case codexSendFailed =>
      split
      · exact le_refl _
      · split
        · simp [autofixComplete]
        · exact le_refl _
    case droidSendFailed =>
      split
      · exact le_refl _
      · split
        · simp [autofixComplete]
        · exact le_refl _
    case stageTimeoutFired n =>
      split
      · exact le_refl _
      · split
        · exact le_refl _
        · split
          · simp [autofixComplete]
          · exact le_refl _
    case manualStop => split <;> exact le_refl _
  · intro hinv
    cases e <;> simp only [autofixStep]
    case startLoop => split <;> exact hinv
    case codexReady t =>
      split
      · exact hinv
      · split
        · exact hinv
        · exact checkBothReady_inv t _ hinv
    case droidReady t =>
      split
      · exact hinv
      · split
        · exact hinv
        · exact checkBothReady_inv t _ hinv
    case initTimeoutFired =>
      split
      · exact hinv
      · split
        · intro hrun
          simp [autofixComplete] at hrun
        · exact hinv
    case reviewDone text =>
      split
      · exact onReviewComplete_inv text s hinv
      · exact hinv
    case fixDone =>
      split
      · exact onFixComplete_inv s hinv
      · exact hinv
    case nextCycle t =>
      split
      · exact hinv
      · exact startReviewCycle_inv t s hinv
    case codexSendFailed =>
      split
      · exact hinv
      · split
        · intro hrun
          simp [autofixComplete] at hrun
        · exact hinv
    case droidSendFailed =>
      split
      · exact hinv
      · split
        · intro hrun
          simp [autofixComplete] at hrun
        · exact hinv
    case stageTimeoutFired n =>
      split
      · exact hinv
      · split
        · exact hinv
        · split
          · intro hrun
            simp [autofixComplete] at hrun
          · exact hinv
    case manualStop =>
      split
      · exact hinv
      · intro hrun
        simp at hrun
  · intro scens
    exact ⟨rfl, rfl, by simp [autofixStart, autofixInit]⟩
  · intro text c r hrun hstage hdec
    simp only [autofixStep, if_pos hstage, onReviewComplete, hrun, Bool.not_true,
      Bool.false_eq_true, if_false]
    rw [hdec]
    simp [autofixComplete]

/-! ## C2: line classification of `parse_checkbox_items` -/

theorem parseCheckboxGo_cons (trig : Option (List Char)) (inCb : Bool)
    (line : List Char) (rest : List (List Char)) :
    parseCheckboxGo trig inCb (line :: rest) =
      if isFenceLine line then parseCheckboxGo trig (!inCb) rest
      else if inCb then parseCheckboxGo trig inCb rest
      else if isTriggerSkipLine trig line then parseCheckboxGo trig inCb rest
      else
        match matchUnchecked line with
        | some t =>
          let r := parseCheckboxGo trig inCb rest
          ⟨⟨pyStrip t, false⟩ :: r.items, r.context_lines⟩
        | none =>
          match matchChecked line with
          | some t =>
            let r := parseCheckboxGo trig inCb rest
            ⟨⟨pyStrip t, true⟩ :: r.items, r.context_lines⟩
          | none =>
            if (pyStrip line).isEmpty then parseCheckboxGo trig inCb rest
            else
              let r := parseCheckboxGo trig inCb rest
              ⟨r.items, line :: r.context_lines⟩ := rfl

/-- The classification chain of C2 (with the trigger clause amended from
"equal to the trigger" to the code's "stripped line starts,
case-insensitively, with the non-empty trigger"), as an inductive
relation over the split lines: a line consisting of a triple-backtick
fence (after stripping) toggles the in-code flag and is dropped; lines
inside a code block are dropped; trigger-prefixed lines are dropped;
`- [ ] t` lines become unchecked items and `- [x] t` (case-insensitive)
checked items, text stripped, in order of appearance; blank lines are
dropped; every other line is informational context, in order. -/
inductive ParseSpec (trig : Option (List Char)) :
    Bool → List (List Char) → ParseResult → Prop where
  | nil (inCb : Bool) : ParseSpec trig inCb [] ⟨[], []⟩
  | fence (inCb : Bool) (line : List Char) (rest : List (List Char))
      (r : ParseResult) :
      isFenceLine line = true →
      ParseSpec trig (!inCb) rest r →
      ParseSpec trig inCb (line :: rest) r
  | insideCode (line : List Char) (rest : List (List Char)) (r : ParseResult) :
      isFenceLine line = false →
      ParseSpec trig true rest r →
      ParseSpec trig true (line :: rest) r
  | triggerSkip (line : List Char) (rest : List (List Char)) (r : ParseResult) :
      isFenceLine line = false →
      isTriggerSkipLine trig line = true →
      ParseSpec trig false rest r →
      ParseSpec trig false (line :: rest) r
  | uncheckedItem (line : List Char) (rest : List (List Char)) (t : List Char)
      (r : ParseResult) :
      isFenceLine line = false →
      isTriggerSkipLine trig line = false →
      matchUnchecked line = some t →
      ParseSpec trig false rest r →
      ParseSpec trig false (line :: rest)
        ⟨⟨pyStrip t, false⟩ :: r.items, r.context_lines⟩
  | checkedItem (line : List Char) (rest : List (List Char)) (t : List Char)
      (r : ParseResult) :
      isFenceLine line = false →
      isTriggerSkipLine trig line = false →
      matchUnchecked line = none →
      matchChecked line = some t →
      ParseSpec trig false rest r →
      ParseSpec trig false (line :: rest)
        ⟨⟨pyStrip t, true⟩ :: r.items, r.context_lines⟩
  | blank (line : List Char) (rest : List (List Char)) (r : ParseResult) :
      isFenceLine line = false →
      isTriggerSkipLine trig line = false →
      matchUnchecked line = none →
      matchChecked line = none →
      (pyStrip line).isEmpty = true →
      ParseSpec trig false rest r →
      ParseSpec trig false (line :: rest) r
  | contextLine (line : List Char) (rest : List (List Char)) (r : ParseResult) :
      isFenceLine line = false →
      isTriggerSkipLine trig line = false →
      matchUnchecked line = none →
      matchChecked line = none →
      (pyStrip line).isEmpty = false →
      ParseSpec trig false rest r →
      ParseSpec trig false (line :: rest) ⟨r.items, line :: r.context_lines⟩

theorem parseCheckboxGo_satisfies_spec (trig : Option (List Char)) :
    ∀ (ls : List (List Char)) (inCb : Bool),
      ParseSpec trig inCb ls (parseCheckboxGo trig inCb ls) := by
  intro ls
  induction ls with
  | nil => intro inCb; exact ParseSpec.nil inCb
  | cons line rest ih =>
    intro inCb
    by_cases hf : isFenceLine line = true
    · have he : parseCheckboxGo trig inCb (line :: rest) =
          parseCheckboxGo trig (!inCb) rest := by
        rw [parseCheckboxGo_cons, if_pos hf]
      rw [he]
      exact ParseSpec.fence inCb line rest _ hf (ih (!inCb))
    · rw [Bool.not_eq_true] at hf
      cases inCb with
      | true =>
        have he : parseCheckboxGo trig true (line :: rest) =
            parseCheckboxGo trig true rest := by
          rw [parseCheckboxGo_cons, if_neg (by simp [hf]), if_pos rfl]
        rw [he]
        exact ParseSpec.insideCode line rest _ hf (ih true)
      | false =>
        by_cases htr : isTriggerSkipLine trig line = true
        · have he : parseCheckboxGo trig false (line :: rest) =
              parseCheckboxGo trig false rest := by
            rw [parseCheckboxGo_cons, if_neg (by simp [hf]),
              if_neg Bool.false_ne_true, if_pos htr]
          rw [he]
          exact ParseSpec.triggerSkip line rest _ hf htr (ih false)
        · rw [Bool.not_eq_true] at htr
          cases hu : matchUnchecked line with
          | some t =>
            have he : parseCheckboxGo trig false (line :: rest) =
                ⟨⟨pyStrip t, false⟩ :: (parseCheckboxGo trig false rest).items,
                  (parseCheckboxGo trig false rest).context_lines⟩ := by
              rw [parseCheckboxGo_cons, if_neg (by simp [hf]),
                if_neg Bool.false_ne_true, if_neg (by simp [htr]), hu]
            rw [he]
            exact ParseSpec.uncheckedItem line rest t _ hf htr hu (ih false)
          | none =>
            cases hc : matchChecked line with
            | some t =>
              have he : parseCheckboxGo trig false (line :: rest) =
                  ⟨⟨pyStrip t, true⟩ :: (parseCheckboxGo trig false rest).items,
                    (parseCheckboxGo trig false rest).context_lines⟩ := by
                rw [parseCheckboxGo_cons, if_neg (by simp [hf]),
                  if_neg Bool.false_ne_true, if_neg (by simp [htr]), hu, hc]
              rw [he]
              exact ParseSpec.checkedItem line rest t _ hf htr hu hc (ih false)
            | none =>
              by_cases hb : (pyStrip line).isEmpty = true
              · have he : parseCheckboxGo trig false (line :: rest) =
                    parseCheckboxGo trig false rest := by
                  rw [parseCheckboxGo_cons, if_neg (by simp [hf]),
                    if_neg Bool.false_ne_true, if_neg (by simp [htr]), hu, hc,
                    if_pos hb]
                rw [he]
                exact ParseSpec.blank line rest _ hf htr hu hc hb (ih false)
              · rw [Bool.not_eq_true] at hb
                have he : parseCheckboxGo trig false (line :: rest) =
                    ⟨(parseCheckboxGo trig false rest).items,
                      line :: (parseCheckboxGo trig false rest).context_lines⟩ := by
                  rw [parseCheckboxGo_cons, if_neg (by simp [hf]),
                    if_neg Bool.false_ne_true, if_neg (by simp [htr]), hu, hc,
                    if_neg (by simp [hb])]
                rw [he]
                exact ParseSpec.contextLine line rest _ hf htr hu hc hb (ih false)

theorem ParseSpec_eq_parseCheckboxGo {trig : Option (List Char)}
    {inCb : Bool} {ls : List (List Char)} {r : ParseResult}
    (h : ParseSpec trig inCb ls r) : r = parseCheckboxGo trig inCb ls := by
  induction h with
  | nil inCb => rfl
  | fence inCb line rest r hf _ ih =>
    rw [parseCheckboxGo_cons, if_pos hf]
    exact ih
  | insideCode line rest r hf _ ih =>
    rw [parseCheckboxGo_cons, if_neg (by simp [hf]), if_pos rfl]
    exact ih
  | triggerSkip line rest r hf htr _ ih =>
    rw [parseCheckboxGo_cons, if_neg (by simp [hf]), if_neg Bool.false_ne_true,
      if_pos htr]
    exact ih
  | uncheckedItem line rest t r hf htr hu _ ih =>
    rw [parseCheckboxGo_cons, if_neg (by simp [hf]), if_neg Bool.false_ne_true,
      if_neg (by simp [htr]), hu, ih]
  | checkedItem line rest t r hf htr hu hc _ ih =>
    rw [parseCheckboxGo_cons, if_neg (by simp [hf]), if_neg Bool.false_ne_true,
      if_neg (by simp [htr]), hu, hc, ih]
  | blank line rest r hf htr hu hc hb _ ih =>
    rw [parseCheckboxGo_cons, if_neg (by simp [hf]), if_neg Bool.false_ne_true,
      if_neg (by simp [htr]), hu, hc, if_pos hb]
    exact ih
  | contextLine line rest r hf htr hu hc hb _ ih =>
    rw [parseCheckboxGo_cons, if_neg (by simp [hf]), if_neg Bool.false_ne_true,
      if_neg (by simp [htr]), hu, hc, if_neg (by simp [hb]), ih]

/-- **C2 (counterexample).**  A non-blank, non-fence, non-checkbox line
that merely *starts with* the trigger — `"[fix_confirmation] extra
note"` against trigger `"[fix_confirmation]"` — is not equal to the
trigger, so by the claim's classification it should be collected as a
context line; the code skips it entirely: the parse yields no items and
no context lines. -/
theorem trigger_prefix_line_skipped_not_context :
    parse_checkbox_items "[fix_confirmation] extra note".toList
        (some "[fix_confirmation]".toList) = ⟨[], []⟩ ∧
    isFenceLine "[fix_confirmation] extra note".toList = false ∧
    matchUnchecked "[fix_confirmation] extra note".toList = none ∧
    matchChecked "[fix_confirmation] extra note".toList = none ∧
    (pyStrip "[fix_confirmation] extra note".toList).isEmpty = false ∧
    pyLower (pyStrip "[fix_confirmation] extra note".toList) ≠
      pyLower "[fix_confirmation]".toList := by
  decide

/-- **C2 (amended: a line is skipped when its stripped form starts,
case-insensitively, with the non-empty trigger — not only when it equals
it).**  `parse_checkbox_items` classifies lines exactly as the amended
chain states: `ParseSpec` (the clause-by-clause classification relation)
holds of precisely the result the function returns; and the concrete
example parses to exactly the two items `{text:"P0 a", checked:false}`,
`{text:"P1 b", checked:true}` with no context lines. -/
theorem parse_checkbox_items_classification (text : List Char)
    (trig : Option (List Char)) (r : ParseResult) :
    (ParseSpec trig false (pySplitNL text) r ↔
      r = parse_checkbox_items text trig) ∧
    parse_checkbox_items "- [ ] P0 a\n- [x] P1 b".toList none =
      ⟨[⟨"P0 a".toList, false⟩, ⟨"P1 b".toList, true⟩], []⟩ := by
  constructor
  · constructor
    · exact ParseSpec_eq_parseCheckboxGo
    · intro hr
      rw [hr]
      exact parseCheckboxGo_satisfies_spec trig (pySplitNL text) false
  · decide

/-! ## C1: the decision chain of `decide_autofix_next` -/

/-- The claim-side matching predicate for one scenario entry (with the
amendment: only a *non-empty* trigger can match, since Python's
`if trigger:` skips `None` and `''` triggers). -/
def scenarioMatchesProp (text : List Char) (kv : String × Scenario) : Prop :=
  kv.1 ≠ "default" ∧ ∃ t, kv.2.trigger = some t ∧ t ≠ [] ∧
    pyStartsWith (pyLower (pyStrip text)) (pyLower t) = true

theorem scenarioTriggerHit_iff (text : List Char) (kv : String × Scenario) :
    scenarioTriggerHit text kv = true ↔ scenarioMatchesProp text kv := by
  rw [scenarioTriggerHit, scenarioMatchesProp, Bool.and_eq_true]
  constructor
  · rintro ⟨h1, h2⟩
    refine ⟨by simpa using h1, ?_⟩
    cases ht : kv.2.trigger with
    | none => rw [ht] at h2; cases h2
    | some t =>
      rw [ht, Bool.and_eq_true] at h2
      exact ⟨t, rfl, by simpa using h2.1, h2.2⟩
  · rintro ⟨h1, t, ht, hne, hpref⟩
    refine ⟨by simpa using h1, ?_⟩
    rw [ht, Bool.and_eq_true]
    exact ⟨by simpa using hne, hpref⟩

theorem find?_first {α : Type} (p : α → Bool) (pre : List α) (kv : α)
    (post : List α) (hpre : ∀ x ∈ pre, p x = false) (hkv : p kv = true) :
    (pre ++ kv :: post).find? p = some kv := by
  induction pre with
  | nil => exact List.find?_cons_of_pos _ hkv
  | cons x pre2 ih =>
    rw [List.cons_append, List.find?_cons_of_neg _ (by
      rw [hpre x (List.mem_cons_self x pre2)]
      exact Bool.false_ne_true)]
    exact ih (fun y hy => hpre y (List.mem_cons_of_mem x hy))

/-- The boundary-before condition of `\bP[01]\b` at a split point:
the character just left of the `P` (the last of `pre`, or `prev` when
`pre` is empty) is not a word character. -/
def boundaryBeforeOk (prev : Option Char) (pre : List Char) : Prop :=
  match pre.getLast? with
  | some q => isWordChar q = false
  | none => isWordBefore prev = false

theorem boundaryBeforeOk_cons (prev : Option Char) (c : Char)
    (pre : List Char) :
    boundaryBeforeOk prev (c :: pre) ↔ boundaryBeforeOk (some c) pre := by
  cases pre with
  | nil => rw [boundaryBeforeOk, boundaryBeforeOk]; rfl
  | cons b t =>
    rw [boundaryBeforeOk, boundaryBeforeOk, List.getLast?_cons_cons]
    cases h : (b :: t).getLast? with
    | none =>
      rw [List.getLast?_eq_none_iff] at h
      cases h
    | some q => exact Iff.rfl

/-- `re.search(r'\bP[01]\b', l)` (with `prev` the character before `l`)
holds exactly when `l` splits as `pre ++ 'P' :: d :: post` with
`d ∈ {0,1}`, a non-word boundary before the `P`, and a non-word boundary
after the digit. -/
theorem hasStandaloneP01_nil (prev : Option Char) :
    hasStandaloneP01 prev [] = false := rfl

theorem hasStandaloneP01_cons (prev : Option Char) (c : Char)
    (rest : List Char) :
    hasStandaloneP01 prev (c :: rest) =
      ((c = 'P' &&
        (match rest with
         | d :: rest2 =>
           (d = '0' || d = '1') && !isWordBefore prev &&
             (match rest2 with
              | [] => true
              | e :: _ => !isWordChar e)
         | [] => false)) ||
      hasStandaloneP01 (some c) rest) := rfl

theorem hasStandaloneP01_iff :
    ∀ (l : List Char) (prev : Option Char),
      hasStandaloneP01 prev l = true ↔
        ∃ pre d post, l = pre ++ 'P' :: d :: post ∧ (d = '0' ∨ d = '1') ∧
          boundaryBeforeOk prev pre ∧
          (post = [] ∨ ∃ q, post.head? = some q ∧ isWordChar q = false) := by
  intro l
  induction l with
  | nil =>
    intro prev
    rw [hasStandaloneP01_nil]
    simp only [Bool.false_eq_true, false_iff]
    rintro ⟨pre, d, post, heq, -⟩
    cases pre <;> cases heq
  | cons c rest ih =>
    intro prev
    rw [hasStandaloneP01_cons, Bool.or_eq_true, ih (some c)]
    constructor
    · rintro (hhead | ⟨pre, d, post, rfl, hd, hb, ha⟩)
      · rw [Bool.and_eq_true] at hhead
        obtain ⟨hc, hrest⟩ := hhead
        rw [decide_eq_true_eq] at hc
        subst hc
        cases rest with
        | nil => cases hrest
        | cons d rest2 =>
          rw [Bool.and_eq_true, Bool.and_eq_true] at hrest
          obtain ⟨⟨hd, hprev⟩, hafter⟩ := hrest
          refine ⟨[], d, rest2, rfl, ?_, ?_, ?_⟩
          · simpa using hd
          · rw [boundaryBeforeOk]
            simpa using hprev
          · cases rest2 with
            | nil => exact Or.inl rfl
            | cons e t =>
              right
              exact ⟨e, rfl, by simpa using hafter⟩
      · exact ⟨c :: pre, d, post, rfl, hd,
          (boundaryBeforeOk_cons prev c pre).mpr hb, ha⟩
    · rintro ⟨pre, d, post, heq, hd, hb, ha⟩
      cases pre with
      | nil =>
        cases heq
        left
        rw [Bool.and_eq_true]
        refine ⟨by simp, ?_⟩
        rw [Bool.and_eq_true, Bool.and_eq_true]
        refine ⟨⟨?_, ?_⟩, ?_⟩
        · rcases hd with rfl | rfl <;> simp
        · rw [boundaryBeforeOk] at hb
          simpa using hb
        · rcases ha with rfl | ⟨q, hq, hw⟩
          · simp
          · cases post with
            | nil => cases hq
            | cons e t =>
              cases hq
              simpa using hw
      | cons c2 pre2 =>
        obtain ⟨rfl, rfl⟩ : c2 = c ∧ rest = pre2 ++ 'P' :: d :: post := by
          injection heq with h1 h2
          exact ⟨h1.symm, h2⟩
        exact Or.inr ⟨pre2, d, post, rfl, hd,
          (boundaryBeforeOk_cons prev c2 pre2).mp hb, ha⟩

/-- **C1 (counterexample).**  A scenario with an *empty-string* trigger
breaks the claim's chain: the empty string is a case-insensitive prefix
of every trimmed text, so by the claim the chain should proceed to the
checklist branch (here: zero items parsed, hence `stop(zero_checkboxes)`);
the code's `if trigger:` skips falsy triggers and returns
`stop(no_scenario_match)` instead. -/
theorem empty_trigger_chain_counterexample :
    decide_autofix_next "x".toList 1 10 [("k", ⟨some []⟩)] =
      .stopNoScenarioMatch 1 ∧
    pyStartsWith (pyLower (pyStrip "x".toList)) (pyLower []) = true ∧
    (parse_checkbox_items "x".toList (some [])).items = [] ∧
    (AutofixDecision.stopNoScenarioMatch 1 ≠ .stopZeroCheckboxes 1) := by
  decide

theorem detect_scenario_of_no_hit (text : List Char) (scens : ScenarioTable)
    (h : ∀ kv ∈ scens, ¬ scenarioMatchesProp text kv) :
    detect_scenario text scens = "default" := by
  rw [detect_scenario]
  have hnone : scens.find? (scenarioTriggerHit text) = none := by
    rw [List.find?_eq_none]
    intro kv hkv hhit
    exact h kv hkv ((scenarioTriggerHit_iff text kv).mp hhit)
  rw [hnone]

theorem detect_scenario_of_first_hit (text : List Char)
    (pre : List (String × Scenario)) (kv : String × Scenario)
    (post : List (String × Scenario))
    (hpre : ∀ x ∈ pre, ¬ scenarioMatchesProp text x)
    (hkv : scenarioMatchesProp text kv) :
    detect_scenario text (pre ++ kv :: post) = kv.1 := by
  rw [detect_scenario,
    find?_first (scenarioTriggerHit text) pre kv post
      (fun x hx => by
        have : scenarioTriggerHit text x ≠ true :=
          fun hh => hpre x hx ((scenarioTriggerHit_iff text x).mp hh)
        exact Bool.eq_false_iff.mpr this)
      ((scenarioTriggerHit_iff text kv).mpr hkv)]

theorem boundaryBeforeOk_none_iff (pre : List Char) :
    boundaryBeforeOk none pre ↔
      (pre = [] ∨ ∃ q, pre.getLast? = some q ∧ isWordChar q = false) := by
  rw [boundaryBeforeOk]
  cases h : pre.getLast? with
  | none =>
    rw [List.getLast?_eq_none_iff] at h
    subst h
    simp [isWordBefore]
  | some q =>
    constructor
    · intro hw
      exact Or.inr ⟨q, rfl, hw⟩
    · rintro (rfl | ⟨q2, hq2, hw⟩)
      · exact absurd h (by simp)
      · injection hq2 with hq3
        rw [hq3]
        exact hw

/-- The tail of `decide_autofix_next` after the scenario has been
resolved to `kv` (trigger `t`). -/
theorem decide_autofix_next_of_scenario (text : List Char) (c m : Nat)
    (scens : ScenarioTable) (kv : String × Scenario) (t : List Char)
    (hdet : detect_scenario text scens = kv.1)
    (hkey : (kv.1 == "default") = false)
    (hfind : scens.find? (fun kv2 => kv2.1 == kv.1) = some kv)
    (ht : kv.2.trigger = some t) :
    decide_autofix_next text c m scens =
      (if (parse_checkbox_items text (some t)).items.isEmpty then
        AutofixDecision.stopZeroCheckboxes c
      else if (filter_p0p1_items
          ((parse_checkbox_items text (some t)).items.filter
            (fun i => !i.checked))).isEmpty then
        AutofixDecision.complete c
      else if m ≤ c then
        AutofixDecision.stopMaxCycles c
          (filter_p0p1_items
            ((parse_checkbox_items text (some t)).items.filter
              (fun i => !i.checked))).length
      else
        AutofixDecision.continueFix (c + 1)
          ((filter_p0p1_items
            ((parse_checkbox_items text (some t)).items.filter
              (fun i => !i.checked))).map CheckItem.text) kv.1) := by
  simp only [decide_autofix_next, hdet, hkey, hfind, ht, Bool.false_eq_true,
    if_false]

/-- **C1 (amended: a scenario matches only through a *non-empty*
trigger — Python's `if trigger:` skips absent and empty triggers).**
The decision chain of `decide_autofix_next`: if no non-default scenario
has a non-empty trigger that is a case-insensitive prefix of the trimmed
text, the result is `stop(no_scenario_match)`; otherwise, with `kv` the
first such scenario (trigger `t`): zero parsed checklist items give
`stop(zero_checkboxes)`; else, with `F` the unchecked items whose text
(stripped of leading whitespace/markdown punctuation/brackets and
upper-cased) contains a standalone `P0`/`P1` token: `F = []` gives
`complete`; `cycle_count ≥ max_cycles` gives `stop(max_cycles)` carrying
`|F|`; otherwise `continue` with the texts of `F`, cycle `c+1` and the
matched scenario key.  The last conjunct characterises the standalone
`P0`/`P1` token test declaratively. -/
theorem decide_autofix_next_chain (text : List Char) (c m : Nat)
    (scens : ScenarioTable) (hnd : (scens.map Prod.fst).Nodup) :
    ((∀ kv ∈ scens, ¬ scenarioMatchesProp text kv) →
      decide_autofix_next text c m scens = .stopNoScenarioMatch c) ∧
    (∀ (pre : List (String × Scenario)) (kv : String × Scenario)
        (post : List (String × Scenario)),
      scens = pre ++ kv :: post →
      (∀ x ∈ pre, ¬ scenarioMatchesProp text x) →
      scenarioMatchesProp text kv →
      ∀ t, kv.2.trigger = some t →
      (((parse_checkbox_items text (some t)).items = [] →
        decide_autofix_next text c m scens = .stopZeroCheckboxes c) ∧
      ((parse_checkbox_items text (some t)).items ≠ [] →
        filter_p0p1_items ((parse_checkbox_items text (some t)).items.filter
          (fun i => !i.checked)) = [] →
        decide_autofix_next text c m scens = .complete c) ∧
      ((parse_checkbox_items text (some t)).items ≠ [] →
        filter_p0p1_items ((parse_checkbox_items text (some t)).items.filter
          (fun i => !i.checked)) ≠ [] →
        m ≤ c →
        decide_autofix_next text c m scens =
          .stopMaxCycles c (filter_p0p1_items
            ((parse_checkbox_items text (some t)).items.filter
              (fun i => !i.checked))).length) ∧
      ((parse_checkbox_items text (some t)).items ≠ [] →
        filter_p0p1_items ((parse_checkbox_items text (some t)).items.filter
          (fun i => !i.checked)) ≠ [] →
        c < m →
        decide_autofix_next text c m scens =
          .continueFix (c + 1)
            ((filter_p0p1_items ((parse_checkbox_items text (some t)).items.filter
              (fun i => !i.checked))).map CheckItem.text) kv.1))) ∧
    (∀ it : CheckItem, isP0P1Item it = true ↔
      ∃ pre d post,
        pyUpper (stripLeadingMarkup (pyStrip it.text)) = pre ++ 'P' :: d :: post ∧
        (d = '0' ∨ d = '1') ∧
        (pre = [] ∨ ∃ q, pre.getLast? = some q ∧ isWordChar q = false) ∧
        (post = [] ∨ ∃ q, post.head? = some q ∧ isWordChar q = false)) := by
  refine ⟨?_, ?_, ?_⟩
  · intro hno
    have hdet := detect_scenario_of_no_hit text scens hno
    simp [decide_autofix_next, hdet]
  · rintro pre kv post rfl hpre hkv t ht
    have hdet := detect_scenario_of_first_hit text pre kv post hpre hkv
    have hkey : (kv.1 == "default") = false := by
      rw [beq_eq_false_iff_ne]
      exact hkv.1
    have hkvkey : (kv.1 == kv.1) = true := beq_self_eq_true kv.1
    have hnotin : kv.1 ∉ pre.map Prod.fst := by
      rw [List.map_append, List.map_cons] at hnd
      rw [List.nodup_append] at hnd
      intro hmem
      exact (hnd.2.2 hmem) (List.mem_cons_self _ _)
    have hfind : (pre ++ kv :: post).find? (fun kv2 => kv2.1 == kv.1) = some kv := by
      refine find?_first _ pre kv post (fun x hx => ?_) hkvkey
      have hne : x.1 ≠ kv.1 := by
        intro he
        apply hnotin
        rw [← he]
        exact List.mem_map_of_mem Prod.fst hx
      exact beq_eq_false_iff_ne.mpr hne
    have hmain := decide_autofix_next_of_scenario text c m (pre ++ kv :: post)
      kv t hdet hkey hfind ht
    refine ⟨?_, ?_, ?_, ?_⟩
    · intro hz
      rw [hmain, if_pos (List.isEmpty_eq_true.mpr hz)]
    · intro hnz hF
      rw [hmain, if_neg (by simp [hnz]), if_pos (List.isEmpty_eq_true.mpr hF)]
    · intro hnz hF hmc
      rw [hmain, if_neg (by simp [hnz]), if_neg (by simp [hF]), if_pos hmc]
    · intro hnz hF hcm
      rw [hmain, if_neg (by simp [hnz]), if_neg (by simp [hF]),
        if_neg (by omega)]
  · intro it
    rw [isP0P1Item, hasStandaloneP01_iff]
    constructor
    · rintro ⟨pre, d, post, heq, hd, hb, ha⟩
      exact ⟨pre, d, post, heq, hd, (boundaryBeforeOk_none_iff pre).mp hb, ha⟩
    · rintro ⟨pre, d, post, heq, hd, hb, ha⟩
      exact ⟨pre, d, post, heq, hd, (boundaryBeforeOk_none_iff pre).mpr hb, ha⟩

/-- Witness for C1: the default scenario table, a review with one open
P0 item, cycle 2 of 10 — the chain yields `continue` with that item. -/
theorem decide_autofix_next_chain_witness :
    decide_autofix_next "[fix_confirmation]\n- [ ] P0 bug".toList 2 10
      [("review_confirm", ⟨some "[fix_confirmation]".toList⟩)] =
      .continueFix 3 ["P0 bug".toList] "review_confirm" := by
  have h := (decide_autofix_next_chain "[fix_confirmation]\n- [ ] P0 bug".toList
    2 10 [("review_confirm", ⟨some "[fix_confirmation]".toList⟩)]
    (by decide)).2.1 [] ("review_confirm", ⟨some "[fix_confirmation]".toList⟩) []
    rfl (fun x hx => absurd hx (List.not_mem_nil x))
    ⟨by decide, "[fix_confirmation]".toList, rfl, by decide, by decide⟩
    "[fix_confirmation]".toList rfl
  have h4 := h.2.2.2 (by decide) (by decide) (by decide)
  rw [h4]
  rfl

end OpenSpecUI
